import Mathlib

/-!
Verification development for `electrum2descriptors`
(`src/src/electrum_wallet_file.rs`).

The Rust source is shallowly embedded: strings become `List Char` / `String`,
the three `Regex` patterns of the source are hand-compiled into executable
scanners with the leftmost-first match semantics of the `regex` crate, and
fallible Rust calls return `RRes` (which also records panics such as an
out-of-bounds index or a failed `unwrap`).

The repository code for `ElectrumExtendedPrivKey` / `ElectrumExtendedPubKey`
(the version-byte codec of spec §4.1) is not under `src/`; the few definitions
that depend on it are modelled from the spec and are marked as such.
-/

namespace E2D

/-- Error values of the source, by kind.  Each constructor corresponds to one
`Err(...)` site of `electrum_wallet_file.rs`; the exact Rust message text is
given in the comment. -/
inductive RErr where
  /-- Rust: "Unknown descriptor format: None" (`from_descriptor_singlesig`). -/
  | unknownDescriptor
  /-- Rust: "Unknown multisig descriptor format: None" (`from_descriptor_multisig`). -/
  | unknownMultisigDescriptor
  /-- Rust: "unknown nultisig kind: ..." (`from_descriptor_multisig`, unreachable). -/
  | unknownMultisigKind (k : String)
  /-- Rust: "Multisig with less than two signers ..." (`from_descriptor_multisig`). -/
  | insufficientSigners
  /-- Rust: "Unknown wallet type: s" (`WalletType::from_str`). -/
  | unknownWalletType (s : String)
  /-- serde: `de::Error::unknown_field` in the field classifier. -/
  | unknownField (name : String)
  /-- serde: a document value whose shape does not match the expected type. -/
  | invalidShape
  /-- Modelled from the spec: `InvalidExtendedKey` of §7, raised by the key codec. -/
  | invalidExtendedKey
  deriving DecidableEq, Repr

/-- Result of a Rust call: success, a recoverable `Err`, or a panic (an
out-of-bounds index or a failed `unwrap`). -/
inductive RRes (α : Type) where
  | ok (a : α)
  | err (e : RErr)
  | panic
  deriving DecidableEq, Repr

/-- The `addresses` section (struct `Addresses` of the source). -/
structure Addresses where
  change : List String
  receiving : List String
  deriving DecidableEq, Repr

/-- `Addresses::new`. -/
def Addresses.new : Addresses := ⟨[], []⟩

/-- One keystore section (struct `Keystore` of the source): `type` (Rust
`r#type`, default "bip32"), optional tagged private key text, tagged public
key text. -/
structure Keystore where
  type_ : String
  xprv : Option String
  xpub : String
  deriving DecidableEq, Repr

/-- The `wallet_type` section (enum `WalletType`): `Standard` or
`Multisig(m, n)` with `m`, `n` Rust `u8` values. -/
inductive WalletType where
  | standard
  | multisig (m n : Nat)
  deriving DecidableEq, Repr

/-- The whole wallet document (struct `ElectrumWalletFile`). -/
structure ElectrumWalletFile where
  addresses : Addresses
  wallet_type : WalletType
  keystores : List Keystore
  deriving DecidableEq, Repr

/-! ## The extended-key codec, modelled from the spec

The codec lives in repository files that are not under `src/`.  Spec §4.1:
the tagged text is obtained from `(script kind, standard key text)` by a
version-byte remap that is reversed exactly by `decode`; so the codec is a
bijection between pairs and well-formed tagged text.  We model the tagged text
as an explicit injective pairing of the kind string and the raw key text.
Base58check validation done by the external `bitcoin` crate (an out-of-scope
collaborator, spec §6) is abstracted away: every raw token that the descriptor
grammar admits is treated as a valid extended key. -/

/-- Modelled from the spec: tag-encoding of a standard key text with a script
kind (spec §4.1 `encode`); any injective pairing represents it. -/
def electrumEncode (kind raw : String) : String := kind ++ ":" ++ raw

/-- Split a character list at the first colon. -/
def splitColon : List Char → Option (List Char × List Char)
  | [] => none
  | c :: r =>
    if c = ':' then some ([], r)
    else (splitColon r).map (fun p => (c :: p.1, p.2))

/-- Modelled from the spec: decoding of tagged text back to
`(script kind, standard key text)` (spec §4.1 `decode`); fails with
`InvalidExtendedKey` on text outside the image of the encoding. -/
def electrumDecode (s : String) : RRes (String × String) :=
  match splitColon s.data with
  | some (k, x) => .ok (⟨k⟩, ⟨x⟩)
  | none => .err .invalidExtendedKey

/-- Modelled from the spec: `bitcoin::ExtendedPrivKey::from_str` succeeds
exactly on private extended keys; the base58check checksum test of the
external crate is abstracted to the version-prefix check. -/
def isPrivTok (s : String) : Bool :=
  "xprv".data.isPrefixOf s.data || "tprv".data.isPrefixOf s.data

/-- Modelled from the spec: `derive_public` (spec §4.1); the claims only need
it to be some fixed injective function, its numeric content is external
elliptic-curve code. -/
def derivePublic (raw : String) : String := "pub" ++ raw

/-- `Keystore::new(kind, xkey)`: a private key is stored tagged together with
its derived public key; a public key is stored tagged alone.  The Rust
function returns `Result` only because the external key validation can fail;
that validation is abstracted here (see above), so construction is total. -/
def Keystore.new (kind xkey : String) : Keystore :=
  if isPrivTok xkey then
    { type_ := "bip32", xprv := some (electrumEncode kind xkey),
      xpub := electrumEncode kind (derivePublic xkey) }
  else
    { type_ := "bip32", xprv := none, xpub := electrumEncode kind xkey }

/-- `Keystore::get_xkey`: prefer the tagged private key, else the tagged
public key; returns the decoded `(kind, raw key text)`. -/
def Keystore.get_xkey (ks : Keystore) : RRes (String × String) :=
  match ks.xprv with
  | some s => electrumDecode s
  | none => electrumDecode ks.xpub

/-! ## String scanning primitives -/

/-- Rust `str::contains`: `pat` occurs as a contiguous substring of `l`. -/
def hasSubstr : List Char → List Char → Bool
  | [], pat => pat.isEmpty
  | l@(_ :: r), pat => pat.isPrefixOf l || hasSubstr r pat

/-- Fuelled worker for `replaceAll` (fuel keeps the recursion structural, so
that concrete inputs evaluate inside the kernel; callers pass the input
length, which the lemma `replaceAllF_fuel` shows is always enough). -/
def replaceAllF (pat rep : List Char) : Nat → List Char → List Char
  | _, [] => []
  | 0, l => l
  | fuel + 1, c :: r =>
    if pat ≠ [] && pat.isPrefixOf (c :: r) then
      rep ++ replaceAllF pat rep fuel (r.drop (pat.length - 1))
    else
      c :: replaceAllF pat rep fuel r

/-- Rust `str::replace`: replace every non-overlapping occurrence of `pat`
(leftmost first) by `rep`.  All uses have a non-empty `pat`. -/
def replaceAll (pat rep l : List Char) : List Char :=
  replaceAllF pat rep l.length l

lemma replaceAllF_fuel (pat rep : List Char) :
    ∀ fuel fuel' l, l.length ≤ fuel → l.length ≤ fuel' →
      replaceAllF pat rep fuel l = replaceAllF pat rep fuel' l := by
  intro fuel
  induction fuel with
  | zero =>
    intro fuel' l h _
    have : l = [] := List.length_eq_zero.mp (Nat.le_zero.mp h)
    subst this
    cases fuel' <;> rfl
  | succ f ih =>
    intro fuel' l h h'
    match l with
    | [] => cases fuel' <;> rfl
    | c :: r =>
      match fuel' with
      | 0 => exact absurd h' (by simp)
      | f' + 1 =>
        simp only [replaceAllF]
        split
        · have hd : (r.drop (pat.length - 1)).length ≤ f := by
            have := List.length_drop (pat.length - 1) r
            simp only [List.length_cons] at h; omega
          have hd' : (r.drop (pat.length - 1)).length ≤ f' := by
            have := List.length_drop (pat.length - 1) r
            simp only [List.length_cons] at h'; omega
          rw [ih f' _ hd hd']
        · have hr : r.length ≤ f := by simp only [List.length_cons] at h; omega
          have hr' : r.length ≤ f' := by simp only [List.length_cons] at h'; omega
          rw [ih f' _ hr hr']

/-- Step equation of `replaceAll` on a cons cell. -/
lemma replaceAll_cons (pat rep : List Char) (c : Char) (r : List Char) :
    replaceAll pat rep (c :: r) =
      if pat ≠ [] && pat.isPrefixOf (c :: r) then
        rep ++ replaceAll pat rep (r.drop (pat.length - 1))
      else
        c :: replaceAll pat rep r := by
  unfold replaceAll
  simp only [List.length_cons, replaceAllF]
  split
  · rw [replaceAllF_fuel pat rep r.length (r.drop (pat.length - 1)).length]
    · have := List.length_drop (pat.length - 1) r; omega
    · exact Nat.le_refl _
  · rfl

/-- Rust `desc.matches(c).count()`. -/
def countChar (c : Char) (l : List Char) : Nat := (l.filter (fun x => x = c)).length

/-! ## The singlesig descriptor regex

Hand-compilation of
`(pkh|sh\(wpkh|sh\(wsh|wpkh|wsh)\((([tx]p(ub|rv)[0-9A-Za-z]+)/0/\*)\)+`
with the leftmost-first semantics of the `regex` crate: the earliest starting
position wins, and at a position the alternatives are tried in pattern order.
The greedy `[0-9A-Za-z]+` needs no backtracking: the character after it in the
pattern is `/`, which the class excludes. -/

/-- Parse `[tx]p(ub|rv)[0-9A-Za-z]+` at the head of `l`; returns the matched
token and the remaining characters. -/
def ssKey : List Char → Option (List Char × List Char)
  | c :: p :: r =>
    if (c = 't' || c = 'x') && p = 'p' then
      if ['u','b'].isPrefixOf r || ['r','v'].isPrefixOf r then
        let w := (r.drop 2).takeWhile Char.isAlphanum
        if w = [] then none
        else some (c :: p :: r.take 2 ++ w, (r.drop 2).dropWhile Char.isAlphanum)
      else none
    else none
  | _ => none

/-- At least one closing parenthesis follows (`\)+` with nothing after it in
the pattern needs exactly one mandatory `)`). -/
def closingHead : List Char → Bool
  | c :: _ => c = ')'
  | [] => false

/-- Continuation of the singlesig pattern after the kind alternative:
`\( key /0/\* \)+`; returns the raw key (capture group 3). -/
def ssAfter : List Char → Option (List Char)
  | [] => none
  | c :: r =>
    if c = '(' then
      match ssKey r with
      | some (k, rest) =>
        if "/0/*".data.isPrefixOf rest && closingHead (rest.drop 4) then some k
        else none
      | none => none
    else none

/-- Try one kind alternative `a` at the current position. -/
def ssTry (a l : List Char) : Option (List Char) :=
  if a.isPrefixOf l then ssAfter (l.drop a.length) else none

/-- One attempt of the singlesig regex at the current position; alternatives
in pattern order.  Returns (capture 1 = kind, capture 3 = raw key). -/
def ssMatchAt (l : List Char) : Option (String × String) :=
  match ssTry "pkh".data l with
  | some k => some ("pkh", ⟨k⟩)
  | none =>
    match ssTry "sh(wpkh".data l with
    | some k => some ("sh(wpkh", ⟨k⟩)
    | none =>
      match ssTry "sh(wsh".data l with
      | some k => some ("sh(wsh", ⟨k⟩)
      | none =>
        match ssTry "wpkh".data l with
        | some k => some ("wpkh", ⟨k⟩)
        | none =>
          match ssTry "wsh".data l with
          | some k => some ("wsh", ⟨k⟩)
          | none => none

/-- `Regex::captures` for the singlesig pattern: leftmost match. -/
def ssFind : List Char → Option (String × String)
  | [] => none
  | l@(_ :: r) =>
    match ssMatchAt l with
    | some x => some x
    | none => ssFind r

/-! ## The multisig descriptor regex

Hand-compilation of
`(sh|sh\(wsh|wsh)\(sortedmulti\((\d),([tx]p(ub|rv)[0-9A-Za-z]+/0/\*,?)+\)+`.
Only capture groups 1 (kind) and 2 (the single threshold digit) are read by
the source (`.skip(1).take(2)`), so the scanner returns exactly those; for
the repeated key group only success matters. -/

/-- One iteration body of the repeated key group:
`[tx]p(ub|rv)[0-9A-Za-z]+/0/\*`. -/
def msKeyPath (l : List Char) : Option (List Char) :=
  match ssKey l with
  | some (_, rest) => if "/0/*".data.isPrefixOf rest then some (rest.drop 4) else none
  | none => none

lemma ssKey_rest_length {l k rest} (h : ssKey l = some (k, rest)) :
    rest.length < l.length := by
  match l with
  | [] => simp [ssKey] at h
  | [c] => simp [ssKey] at h
  | c :: p :: r =>
    simp only [ssKey] at h
    split at h
    · split at h
      · split at h
        · exact absurd h (by simp)
        · simp only [Option.some.injEq, Prod.mk.injEq] at h
          have h1 : rest.length ≤ (r.drop 2).length := by
            rw [← h.2]; exact (List.dropWhile_sublist _).length_le
          have h2 := List.length_drop 2 r
          simp only [List.length_cons]
          omega
      · exact absurd h (by simp)
    · exact absurd h (by simp)

lemma msKeyPath_length {l r} (h : msKeyPath l = some r) : r.length < l.length := by
  unfold msKeyPath at h
  split at h
  · rename_i k rest hk
    split at h
    · simp only [Option.some.injEq] at h
      have h1 := ssKey_rest_length hk
      have h2 := List.length_drop 4 rest
      rw [← h]
      omega
    · exact absurd h (by simp)
  · exact absurd h (by simp)

/-- The tail `(key/0/\*,?)+\)+`, with the backtracking of the `regex` engine:
after one group body, either the optional comma is taken or not, and either
more iterations follow or the closing parens begin.  `fuel` bounds the
number of iterations (callers pass at least the input length). -/
def msTail (fuel : Nat) (l : List Char) : Bool :=
  match fuel with
  | 0 => false
  | fuel + 1 =>
    match msKeyPath l with
    | none => false
    | some r =>
      match r with
      | [] => closingHead r
      | c :: r2 =>
        if c = ',' then msTail fuel r2 || closingHead r2
        else msTail fuel r || closingHead r

/-- Continuation of the multisig pattern after the kind alternative:
`\(sortedmulti\((\d),` then the key groups and closing parens; returns the
threshold digit (capture group 2). -/
def msAfter (l : List Char) : Option Char :=
  if "(sortedmulti(".data.isPrefixOf l then
    match l.drop 13 with
    | d :: c :: r =>
      if c = ',' && d.isDigit && msTail (r.length + 1) r then some d else none
    | _ => none
  else none

/-- Try one multisig kind alternative at the current position. -/
def msTry (a l : List Char) : Option Char :=
  if a.isPrefixOf l then msAfter (l.drop a.length) else none

/-- One attempt of the multisig regex at the current position; alternatives in
pattern order (`sh`, `sh\(wsh`, `wsh`). -/
def msMatchAt (l : List Char) : Option (String × Char) :=
  match msTry "sh".data l with
  | some d => some ("sh", d)
  | none =>
    match msTry "sh(wsh".data l with
    | some d => some ("sh(wsh", d)
    | none =>
      match msTry "wsh".data l with
      | some d => some ("wsh", d)
      | none => none

/-- `Regex::captures` for the multisig pattern: leftmost match. -/
def msFind : List Char → Option (String × Char)
  | [] => none
  | l@(_ :: r) =>
    match msMatchAt l with
    | some x => some x
    | none => msFind r

/-! ## The keystore-collection regex

`[tx]p[ur][bv][0-9A-Za-z]+`, iterated over the whole descriptor by
`captures_iter` (leftmost, non-overlapping). -/

/-- A match of the key-collection pattern at the head of `l`. -/
def tokAt : List Char → Option (List Char × List Char)
  | a :: p :: b :: c :: r =>
    if (a = 't' || a = 'x') && p = 'p' && (b = 'u' || b = 'r') && (c = 'b' || c = 'v') then
      let w := r.takeWhile Char.isAlphanum
      if w = [] then none
      else some (a :: p :: b :: c :: w, r.dropWhile Char.isAlphanum)
    else none
  | _ => none

lemma tokAt_rest_length {l t rest} (h : tokAt l = some (t, rest)) :
    rest.length < l.length := by
  match l with
  | [] => simp [tokAt] at h
  | [a] => simp [tokAt] at h
  | [a, b] => simp [tokAt] at h
  | [a, b, c] => simp [tokAt] at h
  | a :: p :: b :: c :: r =>
    simp only [tokAt] at h
    split at h
    · split at h
      · exact absurd h (by simp)
      · simp only [Option.some.injEq, Prod.mk.injEq] at h
        have h1 : rest.length ≤ r.length := by
          rw [← h.2]; exact (List.dropWhile_sublist _).length_le
        simp only [List.length_cons]; omega
    · exact absurd h (by simp)

/-- Fuelled worker for `keyScan` (fuel keeps the recursion structural; the
input length is always enough fuel, see `keyScanF_fuel`). -/
def keyScanF : Nat → List Char → List String
  | _, [] => []
  | 0, _ => []
  | fuel + 1, c :: r =>
    match tokAt (c :: r) with
    | some (tok, rest) => (⟨tok⟩ : String) :: keyScanF fuel rest
    | none => keyScanF fuel r

/-- `captures_iter` of the key-collection pattern: all non-overlapping
matches, left to right. -/
def keyScan (l : List Char) : List String := keyScanF l.length l

lemma keyScanF_fuel :
    ∀ fuel fuel' l, l.length ≤ fuel → l.length ≤ fuel' →
      keyScanF fuel l = keyScanF fuel' l := by
  intro fuel
  induction fuel with
  | zero =>
    intro fuel' l h _
    have : l = [] := List.length_eq_zero.mp (Nat.le_zero.mp h)
    subst this
    cases fuel' <;> rfl
  | succ f ih =>
    intro fuel' l h h'
    match l with
    | [] => cases fuel' <;> rfl
    | c :: r =>
      match fuel' with
      | 0 => exact absurd h' (by simp)
      | f' + 1 =>
        simp only [keyScanF]
        split
        · rename_i tok rest htok
          have hlt := tokAt_rest_length htok
          simp only [List.length_cons] at h h' hlt
          rw [ih f' rest (by omega) (by omega)]
        · simp only [List.length_cons] at h h'
          rw [ih f' r (by omega) (by omega)]

/-- Step equation of `keyScan` on a cons cell. -/
lemma keyScan_cons (c : Char) (r : List Char) :
    keyScan (c :: r) =
      match tokAt (c :: r) with
      | some (tok, rest) => (⟨tok⟩ : String) :: keyScan rest
      | none => keyScan r := by
  unfold keyScan
  simp only [List.length_cons, keyScanF]
  split
  · rename_i tok rest htok
    have hlt := tokAt_rest_length htok
    simp only [List.length_cons] at hlt
    rw [keyScanF_fuel r.length rest.length rest (by omega) (Nat.le_refl _)]
  · rfl

/-! ## Descriptor conversion (`impl ElectrumWalletFile`) -/

/-- `ElectrumWalletFile::from_descriptor_singlesig`. -/
def ElectrumWalletFile.from_descriptor_singlesig (desc : String) :
    RRes ElectrumWalletFile :=
  match ssFind desc.data with
  | some (kind, key) =>
    .ok { addresses := Addresses.new, wallet_type := .standard,
          keystores := [Keystore.new kind key] }
  | none => .err .unknownDescriptor

/-- The `match *kind` table of `from_descriptor_multisig` (the legacy `sh`
wrapper is stored as kind `pkh`). -/
def msKindMap (kind : String) : Option String :=
  if kind = "wsh" then some "wsh"
  else if kind = "sh" then some "pkh"
  else if kind = "sh(wsh" then some "sh(wsh"
  else none

/-- `ElectrumWalletFile::from_descriptor_multisig`: match the multisig
pattern, remap the kind, collect every key token of the whole input with the
second regex, reject fewer than two, store `Multisig(threshold, count as u8)`
(note the `as u8` truncation). -/
def ElectrumWalletFile.from_descriptor_multisig (desc : String) :
    RRes ElectrumWalletFile :=
  match msFind desc.data with
  | some (kind, d) =>
    match msKindMap kind with
    | none => .err (.unknownMultisigKind kind)
    | some kind2 =>
      let keys := keyScan desc.data
      if keys.length < 2 then .err .insufficientSigners
      else
        .ok { addresses := Addresses.new,
              wallet_type := .multisig (d.toNat - '0'.toNat) (keys.length % 256),
              keystores := keys.map fun k => Keystore.new kind2 k }
  | none => .err .unknownMultisigDescriptor

/-- `ElectrumWalletFile::from_descriptor`: dispatch on the literal substring
`sortedmulti`. -/
def ElectrumWalletFile.from_descriptor (desc : String) : RRes ElectrumWalletFile :=
  if hasSubstr desc.data "sortedmulti".data then
    ElectrumWalletFile.from_descriptor_multisig desc
  else
    ElectrumWalletFile.from_descriptor_singlesig desc

/-- `xkeys` collection of `to_descriptors`: `get_xkey` of every keystore,
errors propagated (`collect::<Result<Vec<_>,_>>`). -/
def seqGetX : List Keystore → RRes (List (String × String))
  | [] => .ok []
  | k :: ks =>
    match k.get_xkey with
    | .ok p =>
      match seqGetX ks with
      | .ok l => .ok (p :: l)
      | .err e => .err e
      | .panic => .panic
    | .err e => .err e
    | .panic => .panic

/-- `ElectrumWalletFile::to_descriptors`.  `Standard` renders from
`keystores[0]` (a panic when the list is empty); `Multisig` folds all keys
into `wrapper(sortedmulti(m,k1/0/*,...))`, appends one `)` when the count of
`(` exceeds the count of `)`, and substitutes `/0/*` by `/1/*` for the change
descriptor. -/
def ElectrumWalletFile.to_descriptors (w : ElectrumWalletFile) : RRes (List String) :=
  match w.wallet_type with
  | .standard =>
    match w.keystores with
    | [] => .panic
    | k :: _ =>
      match k.get_xkey with
      | .ok (kind, xk) =>
        .ok [kind ++ "(" ++ xk ++ "/0/*)", kind ++ "(" ++ xk ++ "/1/*)"]
      | .err e => .err e
      | .panic => .panic
  | .multisig x _y =>
    match seqGetX w.keystores with
    | .err e => .err e
    | .panic => .panic
    | .ok [] => .panic
    | .ok (p :: ps) =>
      let pre := (if p.1 = "pkh" then "sh" else p.1) ++ "(sortedmulti(" ++ Nat.repr x
      let d1 := ((p :: ps).foldl (fun acc q => acc ++ ("," ++ q.2 ++ "/0/*")) pre) ++ "))"
      let d := if countChar '(' d1.data > countChar ')' d1.data then d1 ++ ")" else d1
      .ok [d, ⟨replaceAll "/0/*".data "/1/*".data d.data⟩]

/-! ## `WalletType` text form

`FromStr` uses the unanchored pattern `(standard)|(\d+)(of)(\d+)`; the digit
runs go through `parse::<u8>().unwrap()`, which panics above 255.  `Serialize`
writes `"standard"` or `"mofn"`. -/

/-- Numeric value of a run of decimal digit characters. -/
def digitsVal (l : List Char) : Nat :=
  l.foldl (fun a c => 10 * a + (c.toNat - '0'.toNat)) 0

/-- One attempt of the wallet-type pattern at the current position:
`some none` for the `standard` alternative, `some (some (m, n))` for the
digits alternative (values of the two runs). -/
def wtMatchAt (l : List Char) : Option (Option (Nat × Nat)) :=
  if "standard".data.isPrefixOf l then some none
  else
    let d1 := l.takeWhile Char.isDigit
    let r1 := l.dropWhile Char.isDigit
    if d1 ≠ [] && "of".data.isPrefixOf r1 then
      let d2 := (r1.drop 2).takeWhile Char.isDigit
      if d2 ≠ [] then some (some (digitsVal d1, digitsVal d2)) else none
    else none

/-- Leftmost match of the wallet-type pattern. -/
def wtFind : List Char → Option (Option (Nat × Nat))
  | [] => none
  | l@(_ :: r) =>
    match wtMatchAt l with
    | some x => some x
    | none => wtFind r

/-- `impl FromStr for WalletType`; `.panic` is the `unwrap` of a `u8` parse
whose value exceeds 255. -/
def WalletType.from_str (s : String) : RRes WalletType :=
  match wtFind s.data with
  | some none => .ok .standard
  | some (some (m, n)) =>
    if m ≤ 255 && n ≤ 255 then .ok (.multisig m n) else .panic
  | none => .err (.unknownWalletType s)

/-- `impl Serialize for WalletType` (via `format!`). -/
def WalletType.render : WalletType → String
  | .standard => "standard"
  | .multisig m n => Nat.repr m ++ "of" ++ Nat.repr n

/-! ## The document model (serde layer)

A document is an ordered list of named sections.  The generic JSON layer is
the out-of-scope codec boundary of the spec, so each recognized section shape
is one constructor; deserializing a value of the wrong shape is a serde type
error (`invalidShape`). -/

/-- A document section value, by shape. -/
inductive DocValue where
  | vAddrs (a : Addresses)
  | vKs (k : Keystore)
  | vStr (s : String)
  | vNum (n : Nat)
  | vBool (b : Bool)
  | vList (l : List String)
  | vMap (m : List (String × String))
  | vHist (h : List (String × List (String × Nat)))
  | vWinPos (a b c d : Nat)
  deriving DecidableEq, Repr

/-- The `Field` classification enum of the deserializer. -/
inductive Field where
  | addrs
  | keyst
  | walTyp
  | addrHistory
  | winPosQt
  | ignoreBool
  | ignoreString
  | ignoreNumber
  | ignoreMap
  | ignoreVec
  deriving DecidableEq, Repr

/-- The character class `[a-z_\-0-9]` of the field-name pattern. -/
def wordChar (c : Char) : Bool :=
  ('a' ≤ c && c ≤ 'z') || c.isDigit || c = '_' || c = '-'

/-- Second alternative `([a-z_\-0-9]+)` of the field-name pattern. -/
def clWord (l : List Char) : Option (List Char) :=
  let w := l.takeWhile wordChar
  if w = [] then none else some w

/-- Head is the literal `/`. -/
def closingSlash : List Char → Bool
  | c :: _ => c = '/'
  | [] => false

/-- One attempt of the field-name pattern `(x)(\d+)(/)|([a-z_\-0-9]+)` at the
current position: `some none` when the `x<digits>/` alternative matches,
`some (some w)` with the matched word otherwise. -/
def clMatchAt (l : List Char) : Option (Option (List Char)) :=
  match l with
  | c :: r =>
    if c = 'x' && r.takeWhile Char.isDigit ≠ [] && closingSlash (r.dropWhile Char.isDigit) then
      some none
    else (clWord l).map some
  | [] => none

/-- Leftmost match of the field-name pattern. -/
def clFind : List Char → Option (Option (List Char))
  | [] => none
  | l@(_ :: r) =>
    match clMatchAt l with
    | some x => some x
    | none => clFind r

/-- The `FieldVisitor::visit_str` classifier: pattern match, then the fixed
name table; any other name is `unknown_field`. -/
def classifyField (name : String) : RRes Field :=
  match clFind name.data with
  | some none => .ok .keyst
  | some (some w) =>
    match (⟨w⟩ : String) with
    | "keystore" => .ok .keyst
    | "addr_history" => .ok .addrHistory
    | "addresses" => .ok .addrs
    | "channel_backups" => .ok .ignoreMap
    | "channels" => .ok .ignoreMap
    | "fiat_value" => .ok .ignoreMap
    | "invoices" => .ok .ignoreMap
    | "labels" => .ok .ignoreMap
    | "lightning_payments" => .ok .ignoreMap
    | "lightning_preimages" => .ok .ignoreMap
    | "lightning_privkey2" => .ok .ignoreString
    | "payment_requests" => .ok .ignoreMap
    | "prevouts_by_scripthash" => .ok .ignoreMap
    | "qt-console-history" => .ok .ignoreVec
    | "seed_type" => .ok .ignoreString
    | "seed_version" => .ok .ignoreNumber
    | "spent_outpoints" => .ok .ignoreMap
    | "stored_height" => .ok .ignoreNumber
    | "submarine_swaps" => .ok .ignoreMap
    | "transactions" => .ok .ignoreMap
    | "wallet_type" => .ok .walTyp
    | "tx_fees" => .ok .ignoreMap
    | "txi" => .ok .ignoreMap
    | "txo" => .ok .ignoreMap
    | "use_change" => .ok .ignoreBool
    | "use_encryption" => .ok .ignoreBool
    | "winpos-qt" => .ok .winPosQt
    | "verified_tx3" => .ok .ignoreMap
    | _ => .err (.unknownField name)
  | none => .err (.unknownField name)

/-- `ElectrumWalletFileVisitor::visit_map`: fold over the document fields with
the running `(addresses, keystores, wallet_type)` state (defaults
`Addresses::new`, `vec![]`, `Standard`). -/
def visitFields : List (String × DocValue) → Addresses → List Keystore → WalletType →
    RRes ElectrumWalletFile
  | [], a, ks, wt => .ok { addresses := a, wallet_type := wt, keystores := ks }
  | (n, v) :: rest, a, ks, wt =>
    match classifyField n with
    | .err e => .err e
    | .panic => .panic
    | .ok f =>
      match f, v with
      | .addrs, .vAddrs a2 => visitFields rest a2 ks wt
      | .keyst, .vKs k => visitFields rest a (ks ++ [k]) wt
      | .walTyp, .vStr s =>
        match WalletType.from_str s with
        | .ok wt2 => visitFields rest a ks wt2
        | .err e => .err e
        | .panic => .panic
      | .addrHistory, .vHist _ => visitFields rest a ks wt
      | .winPosQt, .vWinPos _ _ _ _ => visitFields rest a ks wt
      | .ignoreBool, .vBool _ => visitFields rest a ks wt
      | .ignoreString, .vStr _ => visitFields rest a ks wt
      | .ignoreNumber, .vNum _ => visitFields rest a ks wt
      | .ignoreVec, .vList _ => visitFields rest a ks wt
      | .ignoreMap, .vMap _ => visitFields rest a ks wt
      | _, _ => .err .invalidShape

/-- `impl Deserialize for ElectrumWalletFile` (on an already-read document). -/
def parseDoc (doc : List (String × DocValue)) : RRes ElectrumWalletFile :=
  visitFields doc Addresses.new [] .standard

/-- `impl Serialize for ElectrumWalletFile`: `addresses`, `wallet_type`, then
`keystore` (from `keystores[0]`, a panic when empty) for `Standard`, or
`x1/ x2/ ...` in keystore order for `Multisig`. -/
def serializeWallet (w : ElectrumWalletFile) : RRes (List (String × DocValue)) :=
  let base := [("addresses", DocValue.vAddrs w.addresses),
               ("wallet_type", DocValue.vStr w.wallet_type.render)]
  match w.wallet_type with
  | .standard =>
    match w.keystores with
    | [] => .panic
    | k :: _ => .ok (base ++ [("keystore", DocValue.vKs k)])
  | .multisig _ _ =>
    .ok (base ++ w.keystores.enum.map fun q =>
      ("x" ++ Nat.repr (q.1 + 1) ++ "/", DocValue.vKs q.2))

/-! ## General lemmas about the scanners -/

lemma takeWhile_append_of_all {p : Char → Bool} {w : List Char} (rest : List Char)
    (hw : ∀ c ∈ w, p c = true) :
    (w ++ rest).takeWhile p = w ++ rest.takeWhile p := by
  induction w with
  | nil => simp
  | cons c w ih =>
    have hc : p c = true := hw c (by simp)
    simp [List.takeWhile_cons, hc, ih (fun x hx => hw x (by simp [hx]))]

lemma dropWhile_append_of_all {p : Char → Bool} {w : List Char} (rest : List Char)
    (hw : ∀ c ∈ w, p c = true) :
    (w ++ rest).dropWhile p = rest.dropWhile p := by
  induction w with
  | nil => simp
  | cons c w ih =>
    have hc : p c = true := hw c (by simp)
    simp [List.dropWhile_cons, hc, ih (fun x hx => hw x (by simp [hx]))]

lemma takeWhile_cons_neg {p : Char → Bool} {c : Char} (r : List Char) (hc : p c = false) :
    (c :: r).takeWhile p = [] := by
  simp [List.takeWhile_cons, hc]

lemma dropWhile_cons_neg {p : Char → Bool} {c : Char} (r : List Char) (hc : p c = false) :
    (c :: r).dropWhile p = c :: r := by
  simp [List.dropWhile_cons, hc]

lemma isPrefixOf_append_self (p l : List Char) : p.isPrefixOf (p ++ l) = true := by
  induction p with
  | nil => simp [List.isPrefixOf]
  | cons c p ih => simp [List.isPrefixOf, ih]

/-- A digit character is distinct from any character outside the digit range. -/
lemma ne_of_isDigit {c d : Char} (h : c.isDigit = true) (hd : d.isDigit = false) :
    (d == c) = false := by
  cases hbe : d == c
  · rfl
  · exact absurd (beq_iff_eq.mp hbe ▸ h) (by simp [hd])

/-! ## C9: empty keystore list -/

/-- Claim C9: deserializing a document with no fields (in particular no
keystore field) yields a `Standard` wallet with an empty keystore list, and
`to_descriptors` on that wallet panics (the `keystores[0]` index) instead of
returning an error value. -/
theorem empty_document_roundtrip_panics :
    parseDoc [] = .ok ⟨Addresses.new, .standard, []⟩ ∧
    ElectrumWalletFile.to_descriptors ⟨Addresses.new, .standard, []⟩ = .panic :=
  ⟨rfl, rfl⟩

/-! ## C5: `WalletType::from_str` -/

/-- Claim C5 counterexample: the pattern is unanchored, so the input
`nonstandard` parses as `Standard` instead of failing, and an oversized digit
run panics in `unwrap` instead of returning the error. -/
theorem walletType_from_str_counterexample :
    WalletType.from_str "nonstandard" = .ok .standard ∧
    WalletType.from_str "300of2" = .panic := by
  constructor <;> decide

lemma wtFind_digits (s1 s2 : List Char) (h1 : s1 ≠ []) (h2 : s2 ≠ [])
    (hd1 : ∀ c ∈ s1, c.isDigit = true) (hd2 : ∀ c ∈ s2, c.isDigit = true) :
    wtFind (s1 ++ 'o' :: 'f' :: s2) = some (some (digitsVal s1, digitsVal s2)) := by
  match s1, h1 with
  | c :: s1r, _ =>
    have hc : c.isDigit = true := hd1 c (by simp)
    have hstd : "standard".data.isPrefixOf ((c :: s1r) ++ 'o' :: 'f' :: s2) = false := by
      rw [List.cons_append]
      show (('s' == c) && _) = false
      rw [ne_of_isDigit hc (by decide)]
      rfl
    have htk : ((c :: s1r) ++ 'o' :: 'f' :: s2).takeWhile Char.isDigit = c :: s1r := by
      rw [takeWhile_append_of_all _ hd1, takeWhile_cons_neg _ (by decide), List.append_nil]
    have hdr : ((c :: s1r) ++ 'o' :: 'f' :: s2).dropWhile Char.isDigit = 'o' :: 'f' :: s2 := by
      rw [dropWhile_append_of_all _ hd1, dropWhile_cons_neg _ (by decide)]
    have hof : "of".data.isPrefixOf ('o' :: 'f' :: s2) = true :=
      isPrefixOf_append_self "of".data s2
    have hs2 : (('o' :: 'f' :: s2).drop 2).takeWhile Char.isDigit = s2 := by
      show s2.takeWhile Char.isDigit = s2
      simpa using takeWhile_append_of_all (p := Char.isDigit) (w := s2) [] hd2
    have hmatch : wtMatchAt ((c :: s1r) ++ 'o' :: 'f' :: s2) =
        some (some (digitsVal (c :: s1r), digitsVal s2)) := by
      unfold wtMatchAt
      rw [hstd]
      simp only [Bool.false_eq_true, if_false, htk, hdr, hof, hs2]
      rw [if_pos (by simp), if_pos h2]
    show wtFind ((c :: s1r) ++ 'o' :: 'f' :: s2) = _
    rw [List.cons_append]
    unfold wtFind
    rw [← List.cons_append, hmatch]

/-- Claim C5 (amended): the wallet-type pattern is applied unanchored, so the
literal `standard` and the `<digits>of<digits>` shape are recognized anywhere
inside the input; a matched digit run whose value exceeds 255 panics in
`parse::<u8>().unwrap()`; the `UnrecognizedWalletType` error is returned
exactly when the pattern occurs nowhere. -/
theorem walletType_from_str_amended :
    WalletType.from_str "standard" = .ok .standard ∧
    (∀ s1 s2 : List Char, s1 ≠ [] → s2 ≠ [] →
      (∀ c ∈ s1, c.isDigit = true) → (∀ c ∈ s2, c.isDigit = true) →
      WalletType.from_str ⟨s1 ++ 'o' :: 'f' :: s2⟩ =
        if digitsVal s1 ≤ 255 && digitsVal s2 ≤ 255 then
          .ok (.multisig (digitsVal s1) (digitsVal s2))
        else .panic) ∧
    (∀ s : String, wtFind s.data = none →
      WalletType.from_str s = .err (.unknownWalletType s)) := by
  refine ⟨by decide, ?_, ?_⟩
  · intro s1 s2 h1 h2 hd1 hd2
    unfold WalletType.from_str
    rw [show (⟨s1 ++ 'o' :: 'f' :: s2⟩ : String).data = s1 ++ 'o' :: 'f' :: s2 from rfl,
      wtFind_digits s1 s2 h1 h2 hd1 hd2]
  · intro s h
    unfold WalletType.from_str
    rw [h]

/-- Witness for C5 (amended), instantiating the digit branch both below and
above the `u8` bound. -/
theorem walletType_from_str_amended_witness :
    WalletType.from_str "2of3" = .ok (.multisig 2 3) ∧
    WalletType.from_str "300of2" = .panic := by
  have h := walletType_from_str_amended
  constructor
  · exact (h.2.1 ['2'] ['3'] (by decide) (by decide) (by decide) (by decide)).trans (by decide)
  · exact (h.2.1 ['3','0','0'] ['2'] (by decide) (by decide) (by decide) (by decide)).trans
      (by decide)

/-! ## C4: multisig signer count and threshold -/

lemma msMatchAt_kinds {l : List Char} {k : String} {d : Char}
    (h : msMatchAt l = some (k, d)) : k = "sh" ∨ k = "sh(wsh" ∨ k = "wsh" := by
  unfold msMatchAt at h
  split at h
  · simp only [Option.some.injEq, Prod.mk.injEq] at h; exact Or.inl h.1.symm
  · split at h
    · simp only [Option.some.injEq, Prod.mk.injEq] at h; exact Or.inr (Or.inl h.1.symm)
    · split at h
      · simp only [Option.some.injEq, Prod.mk.injEq] at h; exact Or.inr (Or.inr h.1.symm)
      · exact absurd h (by simp)

lemma msFind_kinds {l : List Char} {k : String} {d : Char}
    (h : msFind l = some (k, d)) : k = "sh" ∨ k = "sh(wsh" ∨ k = "wsh" := by
  induction l with
  | nil => exact absurd h (by simp [msFind])
  | cons c r ih =>
    unfold msFind at h
    split at h
    · rename_i x heq
      rw [h] at heq
      exact msMatchAt_kinds heq
    · exact ih h

/-- Equation lemma: `from_descriptor_multisig` when the multisig pattern
matched and the kind remapped. -/
lemma from_descriptor_multisig_eq {s k : String} {d : Char} {kind2 : String}
    (h : msFind s.data = some (k, d)) (hk2 : msKindMap k = some kind2) :
    ElectrumWalletFile.from_descriptor_multisig s =
      if (keyScan s.data).length < 2 then .err .insufficientSigners
      else
        .ok { addresses := Addresses.new,
              wallet_type := .multisig (d.toNat - '0'.toNat) ((keyScan s.data).length % 256),
              keystores := (keyScan s.data).map fun key => Keystore.new kind2 key } := by
  simp only [ElectrumWalletFile.from_descriptor_multisig, h, hk2]

/-- Equation lemma: `from_descriptor_multisig` when the pattern did not match. -/
lemma from_descriptor_multisig_none {s : String} (h : msFind s.data = none) :
    ElectrumWalletFile.from_descriptor_multisig s = .err .unknownMultisigDescriptor := by
  simp only [ElectrumWalletFile.from_descriptor_multisig, h]

/-- Equation lemma: `from_descriptor_singlesig` when the pattern matched. -/
lemma from_descriptor_singlesig_eq {s kind key : String}
    (h : ssFind s.data = some (kind, key)) :
    ElectrumWalletFile.from_descriptor_singlesig s =
      .ok { addresses := Addresses.new, wallet_type := .standard,
            keystores := [Keystore.new kind key] } := by
  simp only [ElectrumWalletFile.from_descriptor_singlesig, h]

/-- Equation lemma: `from_descriptor_singlesig` when the pattern did not match. -/
lemma from_descriptor_singlesig_none {s : String} (h : ssFind s.data = none) :
    ElectrumWalletFile.from_descriptor_singlesig s = .err .unknownDescriptor := by
  simp only [ElectrumWalletFile.from_descriptor_singlesig, h]

/-- Claim C4: when the multisig pattern matches, the conversion fails with
`InsufficientSigners` exactly when the keystore-collection scan over the whole
input finds fewer than two key tokens, and otherwise succeeds with the
matched single-digit threshold as is: the threshold is never compared with
the signer count. -/
theorem multisig_signers_threshold (s : String) (k : String) (d : Char)
    (h : msFind s.data = some (k, d)) :
    ((keyScan s.data).length < 2 →
      ElectrumWalletFile.from_descriptor_multisig s = .err .insufficientSigners) ∧
    (2 ≤ (keyScan s.data).length →
      ∃ kind2, msKindMap k = some kind2 ∧
        ElectrumWalletFile.from_descriptor_multisig s =
          .ok { addresses := Addresses.new,
                wallet_type := .multisig (d.toNat - '0'.toNat) ((keyScan s.data).length % 256),
                keystores := (keyScan s.data).map fun key => Keystore.new kind2 key }) := by
  have hkinds := msFind_kinds h
  have hmap : ∃ kind2, msKindMap k = some kind2 := by
    rcases hkinds with h1 | h1 | h1 <;> subst h1 <;> exact ⟨_, rfl⟩
  obtain ⟨kind2, hk2⟩ := hmap
  constructor
  · intro hlt
    rw [from_descriptor_multisig_eq h hk2, if_pos hlt]
  · intro hge
    refine ⟨kind2, hk2, ?_⟩
    rw [from_descriptor_multisig_eq h hk2, if_neg (by omega)]

/-- Witness for C4: a one-key multisig text fails with `InsufficientSigners`;
a two-key text with threshold 5 (larger than the signer count) succeeds with
`Multisig(5, 2)`. -/
theorem multisig_signers_threshold_witness :
    ElectrumWalletFile.from_descriptor_multisig "wsh(sortedmulti(5,tpubA/0/*))" =
      .err .insufficientSigners ∧
    ElectrumWalletFile.from_descriptor_multisig "wsh(sortedmulti(5,tpubA/0/*,tpubB/0/*))" =
      .ok { addresses := Addresses.new, wallet_type := .multisig 5 2,
            keystores := [Keystore.new "wsh" "tpubA", Keystore.new "wsh" "tpubB"] } := by
  constructor
  · exact (multisig_signers_threshold "wsh(sortedmulti(5,tpubA/0/*))" "wsh" '5'
      (by decide)).1 (by decide)
  · have h := ((multisig_signers_threshold "wsh(sortedmulti(5,tpubA/0/*,tpubB/0/*))" "wsh" '5'
      (by decide)).2 (by decide))
    obtain ⟨kind2, hk2, heq⟩ := h
    have : kind2 = "wsh" := by
      rw [show msKindMap "wsh" = some "wsh" from rfl] at hk2
      exact (Option.some.injEq _ _ ▸ hk2).symm
    subst this
    exact heq.trans (by decide)

/-! ## C6: the length invariant -/

/-- Claim C6 counterexample: a document-parsed wallet can violate the length
invariant: the empty document parses to `Standard` with zero keystores. -/
theorem invariant_counterexample :
    parseDoc [] = .ok ⟨Addresses.new, .standard, []⟩ ∧
    ¬((⟨Addresses.new, .standard, []⟩ : ElectrumWalletFile).wallet_type = .standard ↔
      (⟨Addresses.new, .standard, []⟩ : ElectrumWalletFile).keystores.length = 1) := by
  constructor
  · rfl
  · decide

/-- Claim C6 (amended): the invariant holds for wallets built by
`from_descriptor` (for multisig inputs with at most 255 recognized keys,
because the signer count is truncated `as u8`); wallets parsed from an
on-disk document need not satisfy it. -/
theorem from_descriptor_invariant (desc : String) (w : ElectrumWalletFile)
    (h : ElectrumWalletFile.from_descriptor desc = .ok w)
    (hlen : w.keystores.length ≤ 255) :
    (w.wallet_type = .standard ↔ w.keystores.length = 1) ∧
    (∀ m t, w.wallet_type = .multisig m t → w.keystores.length = t) := by
  unfold ElectrumWalletFile.from_descriptor at h
  split at h
  · match hfind : msFind desc.data with
    | none =>
      rw [from_descriptor_multisig_none hfind] at h
      exact absurd h (by simp)
    | some (k, d) =>
      obtain ⟨kind2, hk2⟩ : ∃ kind2, msKindMap k = some kind2 := by
        rcases msFind_kinds hfind with h1 | h1 | h1 <;> subst h1 <;> exact ⟨_, rfl⟩
      rw [from_descriptor_multisig_eq hfind hk2] at h
      split at h
      · exact absurd h (by simp)
      · rename_i hge
        simp only [RRes.ok.injEq] at h
        subst h
        simp only [List.length_map] at hlen ⊢
        constructor
        · constructor
          · intro hco; exact absurd hco (by simp)
          · intro h1; omega
        · intro m t hco
          simp only [WalletType.multisig.injEq] at hco
          rw [← hco.2, Nat.mod_eq_of_lt (by omega)]
  · match hfind : ssFind desc.data with
    | none =>
      rw [from_descriptor_singlesig_none hfind] at h
      exact absurd h (by simp)
    | some (kind, key) =>
      rw [from_descriptor_singlesig_eq hfind] at h
      simp only [RRes.ok.injEq] at h
      subst h
      refine ⟨by simp, ?_⟩
      intro m t hco
      exact absurd hco (by simp)

/-- Witness for C6 (amended) at a concrete singlesig descriptor. -/
theorem from_descriptor_invariant_witness :
    ElectrumWalletFile.from_descriptor "pkh(tpubA/0/*)" =
      .ok ⟨Addresses.new, .standard, [Keystore.new "pkh" "tpubA"]⟩ ∧
    (((⟨Addresses.new, .standard, [Keystore.new "pkh" "tpubA"]⟩ :
        ElectrumWalletFile).wallet_type = .standard ↔
      (⟨Addresses.new, .standard, [Keystore.new "pkh" "tpubA"]⟩ :
        ElectrumWalletFile).keystores.length = 1) ∧
    (∀ m t, (⟨Addresses.new, .standard, [Keystore.new "pkh" "tpubA"]⟩ :
        ElectrumWalletFile).wallet_type = .multisig m t →
      (⟨Addresses.new, .standard, [Keystore.new "pkh" "tpubA"]⟩ :
        ElectrumWalletFile).keystores.length = t)) :=
  ⟨by decide, from_descriptor_invariant "pkh(tpubA/0/*)" _ (by decide) (by decide)⟩

/-! ## C7: document field naming of the keystores -/

/-- The keystore-valued fields of a rendered document, in order, with their
names. -/
def ksFields (fs : List (String × DocValue)) : List (String × Keystore) :=
  fs.filterMap fun f =>
    match f.2 with
    | .vKs k => some (f.1, k)
    | _ => none

lemma ksFields_append (a b : List (String × DocValue)) :
    ksFields (a ++ b) = ksFields a ++ ksFields b := by
  unfold ksFields; exact List.filterMap_append _ _ _

lemma ksFields_mapX (l : List (Nat × Keystore)) :
    ksFields (l.map fun q => ("x" ++ Nat.repr (q.1 + 1) ++ "/", DocValue.vKs q.2)) =
      l.map fun q => ("x" ++ Nat.repr (q.1 + 1) ++ "/", q.2) := by
  induction l with
  | nil => rfl
  | cons q l ih => simp [ksFields, List.filterMap_cons] at ih ⊢; exact ih

/-- Claim C7: rendering a wallet to document form writes, besides `addresses`
and `wallet_type`, exactly one keystore field named `keystore` (holding
`keystores[0]`) for a `Standard` wallet, and one field per keystore named
`x1/`, `x2/`, ... (1-indexed, following the stored order) for a `Multisig`
wallet. -/
theorem serialize_keystore_fields (w : ElectrumWalletFile)
    (out : List (String × DocValue)) (h : serializeWallet w = .ok out) :
    (∀ k ks, w.wallet_type = .standard → w.keystores = k :: ks →
      ksFields out = [("keystore", k)]) ∧
    (∀ m t, w.wallet_type = .multisig m t →
      ksFields out = w.keystores.enum.map fun q => ("x" ++ Nat.repr (q.1 + 1) ++ "/", q.2)) := by
  constructor
  · intro k ks hstd hks
    simp only [serializeWallet, hstd, hks] at h
    simp only [RRes.ok.injEq] at h
    subst h
    rfl
  · intro m t hmt
    simp only [serializeWallet, hmt] at h
    simp only [RRes.ok.injEq] at h
    subst h
    rw [ksFields_append, ksFields_mapX w.keystores.enum]
    rfl

/-- Witness for C7, at a two-cosigner multisig wallet and a standard wallet. -/
theorem serialize_keystore_fields_witness :
    ksFields [("addresses", .vAddrs Addresses.new), ("wallet_type", .vStr "2of2"),
      ("x1/", .vKs ⟨"bip32", none, "wsh:tpubA"⟩), ("x2/", .vKs ⟨"bip32", none, "wsh:tpubB"⟩)] =
      [("x1/", ⟨"bip32", none, "wsh:tpubA"⟩), ("x2/", ⟨"bip32", none, "wsh:tpubB"⟩)] ∧
    ksFields [("addresses", .vAddrs Addresses.new), ("wallet_type", .vStr "standard"),
      ("keystore", .vKs ⟨"bip32", none, "pkh:tpubA"⟩)] =
      [("keystore", ⟨"bip32", none, "pkh:tpubA"⟩)] := by
  constructor
  · exact ((serialize_keystore_fields
      ⟨Addresses.new, .multisig 2 2, [⟨"bip32", none, "wsh:tpubA"⟩, ⟨"bip32", none, "wsh:tpubB"⟩]⟩
      _ (by decide)).2 2 2 rfl).trans (by decide)
  · exact (serialize_keystore_fields
      ⟨Addresses.new, .standard, [⟨"bip32", none, "pkh:tpubA"⟩]⟩
      _ (by decide)).1 ⟨"bip32", none, "pkh:tpubA"⟩ [] rfl rfl

/-! ## C8: multisig descriptor rendering -/

/-- Concatenation of a list of strings. -/
def joinAll : List String → String
  | [] => ""
  | s :: l => s ++ joinAll l

/-- The multisig receive descriptor as the claim describes it: map the stored
kind of the first cosigner to its outer wrapper (`pkh` to `sh`, others
unchanged), assemble `wrapper(sortedmulti(m,key1/0/*,...,keyN/0/*))` over the
decoded keys in stored order, and append one extra closing parenthesis
exactly when the count of `(` exceeds the count of `)`. -/
def renderMultisigSpec (m : Nat) (kind0 : String) (pairs : List (String × String)) : String :=
  let wrapper := if kind0 = "pkh" then "sh" else kind0
  let body := wrapper ++ "(sortedmulti(" ++ Nat.repr m ++
    joinAll (pairs.map fun p => "," ++ p.2 ++ "/0/*") ++ "))"
  if countChar '(' body.data > countChar ')' body.data then body ++ ")" else body

lemma data_append (a b : String) : (a ++ b).data = a.data ++ b.data := rfl

lemma string_ext {a b : String} (h : a.data = b.data) : a = b := by
  cases a; cases b; exact congrArg _ h

lemma foldl_append_join (l : List (String × String)) (pre : String) :
    l.foldl (fun acc q => acc ++ ("," ++ q.2 ++ "/0/*")) pre =
      pre ++ joinAll (l.map fun p => "," ++ p.2 ++ "/0/*") := by
  induction l generalizing pre with
  | nil =>
    apply string_ext
    simp [joinAll, data_append]
  | cons q l ih =>
    simp only [List.foldl_cons, List.map_cons, joinAll]
    rw [ih]
    apply string_ext
    simp [data_append, List.append_assoc]

/-- Claim C8: `to_descriptors` on a multisig wallet produces exactly the
descriptor described by the claim (wrapper mapping, `sortedmulti` assembly in
stored order, defensive parenthesis balancing), and the change descriptor is
the receive descriptor with every `/0/*` occurrence substituted by `/1/*`. -/
theorem multisig_render (w : ElectrumWalletFile) (m t : Nat)
    (p0 : String × String) (ps : List (String × String))
    (hw : w.wallet_type = .multisig m t)
    (hx : seqGetX w.keystores = .ok (p0 :: ps)) :
    ElectrumWalletFile.to_descriptors w =
      .ok [renderMultisigSpec m p0.1 (p0 :: ps),
           ⟨replaceAll "/0/*".data "/1/*".data (renderMultisigSpec m p0.1 (p0 :: ps)).data⟩] := by
  have hbody : ((p0 :: ps).foldl (fun acc q => acc ++ ("," ++ q.2 ++ "/0/*"))
        ((if p0.1 = "pkh" then "sh" else p0.1) ++ "(sortedmulti(" ++ Nat.repr m)) ++ "))" =
      (if p0.1 = "pkh" then "sh" else p0.1) ++ "(sortedmulti(" ++ Nat.repr m ++
        joinAll ((p0 :: ps).map fun p => "," ++ p.2 ++ "/0/*") ++ "))" := by
    rw [foldl_append_join]
  simp only [ElectrumWalletFile.to_descriptors, hw, hx]
  simp only [renderMultisigSpec, hbody]

/-- Witness for C8 at a two-cosigner legacy (`pkh`) wallet: the wrapper is
`sh`, no extra parenthesis is needed, and the change descriptor swaps the
derivation path. -/
theorem multisig_render_witness :
    ElectrumWalletFile.to_descriptors
      ⟨Addresses.new, .multisig 2 2, [⟨"bip32", none, "pkh:tpubA"⟩, ⟨"bip32", none, "pkh:tpubB"⟩]⟩ =
      .ok ["sh(sortedmulti(2,tpubA/0/*,tpubB/0/*))", "sh(sortedmulti(2,tpubA/1/*,tpubB/1/*))"] := by
  exact (multisig_render _ 2 2 ("pkh", "tpubA") [("pkh", "tpubB")] rfl (by decide)).trans
    (by decide)

/-! ## C10: multi-digit thresholds are rejected

The threshold capture of the multisig pattern is a single `\d`; a threshold
of two or more digits makes the mandatory `,` fail against the second digit,
and no other position of such a descriptor can start a match. -/

lemma hasSubstr_of_pre {l pat : List Char} (h : pat.isPrefixOf l = true) :
    hasSubstr l pat = true := by
  match l with
  | [] =>
    match pat with
    | [] => rfl
    | c :: p => exact absurd h (by simp [List.isPrefixOf])
  | c :: r => simp [hasSubstr, h]

lemma hasSubstr_append_left (pre l pat : List Char) (h : hasSubstr l pat = true) :
    hasSubstr (pre ++ l) pat = true := by
  induction pre with
  | nil => exact h
  | cons c p ih => simp [hasSubstr, ih]

lemma isPrefixOf_cons_ex {c : Char} {p l : List Char}
    (h : (c :: p).isPrefixOf l = true) : ∃ r, l = c :: r := by
  match l with
  | [] => exact absurd h (by simp [List.isPrefixOf])
  | b :: r =>
    refine ⟨r, ?_⟩
    have : (c == b) = true := by
      by_contra hc
      have : (c == b) = false := by revert hc; cases (c == b) <;> simp
      simp [List.isPrefixOf, this] at h
    rw [beq_iff_eq.mp this]

lemma not_paren_msAfter {m : List Char} (h : '(' ∉ m) : msAfter m = none := by
  unfold msAfter
  rw [if_neg]
  intro hpre
  obtain ⟨r, hr⟩ := isPrefixOf_cons_ex (p := "sortedmulti(".data) hpre
  exact h (hr ▸ List.mem_cons_self _ _)

lemma msTry_eq_none_of_pre {a l : List Char} (h : a.isPrefixOf l = false) :
    msTry a l = none := by
  simp [msTry, h]

lemma msTry_eq_none_of_after {a l : List Char} (h1 : a.isPrefixOf l = true)
    (h2 : msAfter (l.drop a.length) = none) : msTry a l = none := by
  simp [msTry, h1, h2]

lemma msMatchAt_none_of {l : List Char}
    (h1 : msTry "sh".data l = none)
    (h2 : msTry "sh(wsh".data l = none)
    (h3 : msTry "wsh".data l = none) : msMatchAt l = none := by
  simp only [msMatchAt, h1, h2, h3]

lemma not_paren_msMatchAt {l : List Char} (h : '(' ∉ l) : msMatchAt l = none := by
  have htry : ∀ a : List Char, msTry a l = none := by
    intro a
    unfold msTry
    split
    · exact not_paren_msAfter (fun hc => h (List.drop_subset _ _ hc))
    · rfl
  exact msMatchAt_none_of (htry _) (htry _) (htry _)

lemma msFind_step {c : Char} {r : List Char} (h : msMatchAt (c :: r) = none) :
    msFind (c :: r) = msFind r := by
  have hstep : msFind (c :: r) =
      match msMatchAt (c :: r) with
      | some x => some x
      | none => msFind r := rfl
  rw [hstep, h]

lemma not_paren_msFind {l : List Char} (h : '(' ∉ l) : msFind l = none := by
  induction l with
  | nil => rfl
  | cons c r ih =>
    rw [msFind_step (not_paren_msMatchAt h)]
    exact ih (fun hc => h (List.mem_cons_of_mem _ hc))

lemma msAfter_digits (t1 t2 : Char) (rest2 : List Char) (h2 : t2.isDigit = true) :
    msAfter ("(sortedmulti(".data ++ (t1 :: t2 :: rest2)) = none := by
  unfold msAfter
  rw [if_pos (isPrefixOf_append_self _ _)]
  show (if (t2 = ',') && t1.isDigit && msTail _ _ then some t1 else none) = none
  have hne : decide (t2 = ',') = false := by
    cases hd : decide (t2 = ',')
    · rfl
    · rw [of_decide_eq_true hd] at h2
      exact absurd h2 (by decide)
  simp [hne]

/-- A position starting `sh(sortedmulti(`: the only viable alternative is
`sh`, whose continuation is the given `msAfter` fact. -/
lemma msMatchAt_sh_sm {X : List Char}
    (h : msAfter ('(' :: 's' :: 'o' :: 'r' :: 't' :: 'e' :: 'd' :: 'm' :: 'u' :: 'l' ::
      't' :: 'i' :: '(' :: X) = none) :
    msMatchAt ('s' :: 'h' :: '(' :: 's' :: 'o' :: 'r' :: 't' :: 'e' :: 'd' :: 'm' :: 'u' ::
      'l' :: 't' :: 'i' :: '(' :: X) = none := by
  apply msMatchAt_none_of
  · exact msTry_eq_none_of_after (by rfl) h
  · exact msTry_eq_none_of_pre (by rfl)
  · exact msTry_eq_none_of_pre (by rfl)

/-- A position starting `wsh(sortedmulti(`. -/
lemma msMatchAt_wsh_sm {X : List Char}
    (h : msAfter ('(' :: 's' :: 'o' :: 'r' :: 't' :: 'e' :: 'd' :: 'm' :: 'u' :: 'l' ::
      't' :: 'i' :: '(' :: X) = none) :
    msMatchAt ('w' :: 's' :: 'h' :: '(' :: 's' :: 'o' :: 'r' :: 't' :: 'e' :: 'd' :: 'm' ::
      'u' :: 'l' :: 't' :: 'i' :: '(' :: X) = none := by
  apply msMatchAt_none_of
  · exact msTry_eq_none_of_pre (by rfl)
  · exact msTry_eq_none_of_pre (by rfl)
  · exact msTry_eq_none_of_after (by rfl) h

/-- A position starting `sh(wsh(sortedmulti(`. -/
lemma msMatchAt_shwsh_sm {X : List Char}
    (h : msAfter ('(' :: 's' :: 'o' :: 'r' :: 't' :: 'e' :: 'd' :: 'm' :: 'u' :: 'l' ::
      't' :: 'i' :: '(' :: X) = none) :
    msMatchAt ('s' :: 'h' :: '(' :: 'w' :: 's' :: 'h' :: '(' :: 's' :: 'o' :: 'r' :: 't' ::
      'e' :: 'd' :: 'm' :: 'u' :: 'l' :: 't' :: 'i' :: '(' :: X) = none := by
  apply msMatchAt_none_of
  · exact msTry_eq_none_of_after (by rfl) (by rfl)
  · exact msTry_eq_none_of_after (by rfl) h
  · exact msTry_eq_none_of_pre (by rfl)

/-- Claim C10: a `sortedmulti` descriptor whose threshold has two or more
digits never matches the multisig pattern, for any of the three wrappers, any
all-digit threshold run, and any parenthesis-free remainder of the text; the
conversion fails with the unrecognized-multisig-descriptor error. -/
theorem multidigit_threshold_rejected (W : String)
    (hW : W = "sh" ∨ W = "wsh" ∨ W = "sh(wsh")
    (t1 t2 : Char) (tr rest : List Char)
    (h1 : t1.isDigit = true) (h2 : t2.isDigit = true)
    (htr : ∀ c ∈ tr, c.isDigit = true) (hrest : '(' ∉ rest) :
    ElectrumWalletFile.from_descriptor
        ⟨W.data ++ "(sortedmulti(".data ++ (t1 :: t2 :: (tr ++ rest))⟩ =
      .err .unknownMultisigDescriptor := by
  have hnp : '(' ∉ t2 :: (tr ++ rest) := by
    intro hm
    rcases List.mem_cons.mp hm with hm | hm
    · rw [← hm] at h2; exact absurd h2 (by decide)
    · rcases List.mem_append.mp hm with hm | hm
      · have := htr _ hm; exact absurd this (by decide)
      · exact hrest hm
  have hafter : msAfter ('(' :: 's' :: 'o' :: 'r' :: 't' :: 'e' :: 'd' :: 'm' :: 'u' :: 'l' ::
      't' :: 'i' :: '(' :: (t1 :: t2 :: (tr ++ rest))) = none :=
    msAfter_digits t1 t2 (tr ++ rest) h2
  have htail : msFind (t1 :: t2 :: (tr ++ rest)) = none :=
    not_paren_msFind (by
      intro hm
      rcases List.mem_cons.mp hm with hm | hm
      · rw [← hm] at h1; exact absurd h1 (by decide)
      · exact hnp hm)
  have hsm : ∀ pre X : List Char,
      hasSubstr (pre ++ ("sortedmulti".data ++ ('(' :: X))) "sortedmulti".data = true :=
    fun pre X =>
      hasSubstr_append_left pre _ _ (hasSubstr_of_pre (isPrefixOf_append_self _ _))
  have hfind : msFind (W.data ++ "(sortedmulti(".data ++ (t1 :: t2 :: (tr ++ rest))) = none := by
    rcases hW with hw | hw | hw <;> subst hw
    · -- "sh" ++ "(sortedmulti(" ++ ...
      show msFind ('s' :: 'h' :: '(' :: 's' :: 'o' :: 'r' :: 't' :: 'e' :: 'd' :: 'm' :: 'u' ::
        'l' :: 't' :: 'i' :: '(' :: (t1 :: t2 :: (tr ++ rest))) = none
      rw [msFind_step (msMatchAt_sh_sm hafter)]
      rw [msFind_step (by rfl), msFind_step (by rfl), msFind_step (by rfl), msFind_step (by rfl),
        msFind_step (by rfl), msFind_step (by rfl), msFind_step (by rfl), msFind_step (by rfl),
        msFind_step (by rfl), msFind_step (by rfl), msFind_step (by rfl), msFind_step (by rfl),
        msFind_step (by rfl), msFind_step (by rfl)]
      exact htail
    · -- "wsh" ++ "(sortedmulti(" ++ ...
      show msFind ('w' :: 's' :: 'h' :: '(' :: 's' :: 'o' :: 'r' :: 't' :: 'e' :: 'd' :: 'm' ::
        'u' :: 'l' :: 't' :: 'i' :: '(' :: (t1 :: t2 :: (tr ++ rest))) = none
      rw [msFind_step (msMatchAt_wsh_sm hafter)]
      rw [msFind_step (msMatchAt_sh_sm hafter)]
      rw [msFind_step (by rfl), msFind_step (by rfl), msFind_step (by rfl), msFind_step (by rfl),
        msFind_step (by rfl), msFind_step (by rfl), msFind_step (by rfl), msFind_step (by rfl),
        msFind_step (by rfl), msFind_step (by rfl), msFind_step (by rfl), msFind_step (by rfl),
        msFind_step (by rfl), msFind_step (by rfl)]
      exact htail
    · -- "sh(wsh" ++ "(sortedmulti(" ++ ...
      show msFind ('s' :: 'h' :: '(' :: 'w' :: 's' :: 'h' :: '(' :: 's' :: 'o' :: 'r' :: 't' ::
        'e' :: 'd' :: 'm' :: 'u' :: 'l' :: 't' :: 'i' :: '(' :: (t1 :: t2 :: (tr ++ rest))) = none
      rw [msFind_step (msMatchAt_shwsh_sm hafter)]
      rw [msFind_step (by rfl), msFind_step (by rfl)]
      rw [msFind_step (msMatchAt_wsh_sm hafter)]
      rw [msFind_step (msMatchAt_sh_sm hafter)]
      rw [msFind_step (by rfl), msFind_step (by rfl), msFind_step (by rfl), msFind_step (by rfl),
        msFind_step (by rfl), msFind_step (by rfl), msFind_step (by rfl), msFind_step (by rfl),
        msFind_step (by rfl), msFind_step (by rfl), msFind_step (by rfl), msFind_step (by rfl),
        msFind_step (by rfl)]
      exact htail
  have hsub : hasSubstr (W.data ++ "(sortedmulti(".data ++ (t1 :: t2 :: (tr ++ rest)))
      "sortedmulti".data = true := by
    rcases hW with hw | hw | hw <;> subst hw
    · exact hsm ['s', 'h', '('] ('(' :: (t1 :: t2 :: (tr ++ rest)))
    · exact hsm ['w', 's', 'h', '('] ('(' :: (t1 :: t2 :: (tr ++ rest)))
    · exact hsm ['s', 'h', '(', 'w', 's', 'h', '('] ('(' :: (t1 :: t2 :: (tr ++ rest)))
  unfold ElectrumWalletFile.from_descriptor
  rw [if_pos hsub]
  exact from_descriptor_multisig_none hfind

/-- Witness for C10: threshold 10 with two keys is rejected. -/
theorem multidigit_threshold_rejected_witness :
    ElectrumWalletFile.from_descriptor "wsh(sortedmulti(10,tpubA/0/*,tpubB/0/*))" =
      .err .unknownMultisigDescriptor := by
  have h := multidigit_threshold_rejected "wsh" (Or.inr (Or.inl rfl)) '1' '0' []
    ",tpubA/0/*,tpubB/0/*))".data (by decide) (by decide) (by decide) (by decide)
  exact (by decide : ElectrumWalletFile.from_descriptor
    "wsh(sortedmulti(10,tpubA/0/*,tpubB/0/*))" =
      ElectrumWalletFile.from_descriptor
        ⟨"wsh".data ++ "(sortedmulti(".data ++ ('1' :: '0' :: ([] ++ ",tpubA/0/*,tpubB/0/*))".data))⟩).trans h

/-! ## C1 and C3: the singlesig templates

`keyTokenOk K` says that `K` is exactly one key token of the grammar
`[tx]p(ub|rv)[0-9A-Za-z]+` (a standard extended public or private key token
at the level of detail the patterns of the source check). -/

/-- `K` consists exactly of `[tx]p(ub|rv)` followed by a non-empty
alphanumeric run. -/
def keyTokenOk (K : String) : Bool :=
  match K.data with
  | c :: p :: a :: b :: w =>
    (c = 't' || c = 'x') && p = 'p' && ((a = 'u' && b = 'b') || (a = 'r' && b = 'v')) &&
      !w.isEmpty && w.all Char.isAlphanum
  | _ => false

lemma keyTokenOk_alnum {K : String} (h : keyTokenOk K = true) :
    ∀ c ∈ K.data, c.isAlphanum = true := by
  unfold keyTokenOk at h
  split at h
  · rename_i c p a b w heq
    simp only [Bool.and_eq_true, Bool.or_eq_true, decide_eq_true_eq, Bool.not_eq_true] at h
    obtain ⟨⟨⟨⟨hc, hp⟩, hab⟩, hw0⟩, hwall⟩ := h
    intro x hx
    rw [heq] at hx
    simp only [List.mem_cons] at hx
    rcases hx with hx | hx | hx | hx | hx
    · rcases hc with hc | hc <;> subst hx <;> subst hc <;> decide
    · subst hx; subst hp; decide
    · rcases hab with ⟨ha, _⟩ | ⟨ha, _⟩ <;> subst hx <;> subst ha <;> decide
    · rcases hab with ⟨_, hb⟩ | ⟨_, hb⟩ <;> subst hx <;> subst hb <;> decide
    · exact List.all_eq_true.mp hwall x hx
  · exact absurd h (by simp)

lemma ne_of_isAlphanum {c d : Char} (h : c.isAlphanum = true) (hd : d.isAlphanum = false) :
    (c == d) = false := by
  cases hbe : c == d
  · rfl
  · rw [beq_iff_eq.mp hbe] at h
    exact absurd h (by simp [hd])

/-- An all-alphanumeric pattern cannot straddle a `/`: a prefix match against
`w ++ '/' :: r` is a prefix match against `w`. -/
lemma isPrefixOf_append_slash (pat : List Char) (hpat : ∀ c ∈ pat, c.isAlphanum = true) :
    ∀ (w r : List Char), pat.isPrefixOf (w ++ '/' :: r) = pat.isPrefixOf w := by
  induction pat with
  | nil => intro w r; cases w <;> rfl
  | cons p ps ih =>
    intro w r
    match w with
    | [] =>
      show ((p == '/') && _) = _
      rw [ne_of_isAlphanum (hpat p (by simp)) (by decide), Bool.false_and]
      rfl
    | a :: w2 =>
      show ((p == a) && ps.isPrefixOf (w2 ++ '/' :: r)) = ((p == a) && ps.isPrefixOf w2)
      rw [ih (fun c hc => hpat c (by simp [hc])) w2 r]

lemma hasSubstr_cons_of_not_pre {pat : List Char} {c : Char} {r : List Char}
    (h : pat.isPrefixOf (c :: r) = false) : hasSubstr (c :: r) pat = hasSubstr r pat := by
  show (pat.isPrefixOf (c :: r) || hasSubstr r pat) = hasSubstr r pat
  rw [h, Bool.false_or]

/-- An all-alphanumeric, non-empty pattern occurs in `w ++ '/' :: r` exactly
when it occurs in `w` or in `'/' :: r`. -/
lemma hasSubstr_append_slash (pat : List Char) (hpat : ∀ c ∈ pat, c.isAlphanum = true)
    (hne : pat ≠ []) :
    ∀ (w r : List Char),
      hasSubstr (w ++ '/' :: r) pat = (hasSubstr w pat || hasSubstr ('/' :: r) pat) := by
  intro w r
  induction w with
  | nil =>
    match pat, hne with
    | p :: ps, _ => rfl
  | cons a w2 ih =>
    show (pat.isPrefixOf ((a :: w2) ++ '/' :: r) || hasSubstr (w2 ++ '/' :: r) pat) = _
    rw [isPrefixOf_append_slash pat hpat (a :: w2) r, ih]
    show _ = ((pat.isPrefixOf (a :: w2) || hasSubstr w2 pat) || _)
    rw [Bool.or_assoc]

/-- `sortedmulti` does not occur in `K/0/*<close>` when it does not occur in
`K` or in `<close>`. -/
lemma no_sm_keypath {K : String} (hKs : hasSubstr K.data "sortedmulti".data = false)
    {close : List Char} (hcl : hasSubstr close "sortedmulti".data = false) :
    hasSubstr (K.data ++ '/' :: '0' :: '/' :: '*' :: close) "sortedmulti".data = false := by
  rw [hasSubstr_append_slash "sortedmulti".data (by decide) (by decide) K.data
    ('0' :: '/' :: '*' :: close), hKs, Bool.false_or]
  rw [hasSubstr_cons_of_not_pre (by rfl), hasSubstr_cons_of_not_pre (by rfl),
    hasSubstr_cons_of_not_pre (by rfl), hasSubstr_cons_of_not_pre (by rfl)]
  exact hcl

/-! Key-token parsing lemmas for the singlesig scanner. -/

/-- Unfolding equation of `ssKey` on a double cons. -/
lemma ssKey_cons (c p : Char) (r : List Char) :
    ssKey (c :: p :: r) =
      if (c = 't' || c = 'x') && p = 'p' then
        if ['u','b'].isPrefixOf r || ['r','v'].isPrefixOf r then
          if (r.drop 2).takeWhile Char.isAlphanum = [] then none
          else some (c :: p :: r.take 2 ++ (r.drop 2).takeWhile Char.isAlphanum,
                     (r.drop 2).dropWhile Char.isAlphanum)
        else none
      else none := rfl

lemma ssKey_token {K : String} (hK : keyTokenOk K = true) (rest2 : List Char) :
    ssKey (K.data ++ '/' :: rest2) = some (K.data, '/' :: rest2) := by
  unfold keyTokenOk at hK
  split at hK
  · rename_i c p a b w heq
    simp only [Bool.and_eq_true, Bool.or_eq_true, decide_eq_true_eq, Bool.not_eq_true] at hK
    obtain ⟨⟨⟨⟨hc, hp⟩, hab⟩, hw0⟩, hwall⟩ := hK
    subst hp
    rw [heq]
    have hw : ∀ x ∈ w, x.isAlphanum = true := List.all_eq_true.mp hwall
    have hw0x : w ≠ [] := by
      intro hcon
      subst hcon
      exact absurd hw0 (by decide)
    have htw : (w ++ '/' :: rest2).takeWhile Char.isAlphanum = w := by
      rw [takeWhile_append_of_all _ hw, takeWhile_cons_neg _ (by decide), List.append_nil]
    have hdw : (w ++ '/' :: rest2).dropWhile Char.isAlphanum = '/' :: rest2 := by
      rw [dropWhile_append_of_all _ hw, dropWhile_cons_neg _ (by decide)]
    show ssKey (c :: 'p' :: (a :: b :: (w ++ '/' :: rest2))) = _
    rw [ssKey_cons]
    rw [if_pos (by rcases hc with hc | hc <;> subst hc <;> simp)]
    rw [if_pos (by rcases hab with ⟨ha, hb⟩ | ⟨ha, hb⟩ <;> subst ha <;> subst hb <;>
      simp [List.isPrefixOf])]
    rw [show (a :: b :: (w ++ '/' :: rest2)).drop 2 = w ++ '/' :: rest2 from rfl]
    rw [htw, hdw]
    rw [if_neg hw0x]
    rw [show (a :: b :: (w ++ '/' :: rest2)).take 2 = [a, b] from rfl]
    rfl
  · exact absurd hK (by simp)

/-- Unfolding equation of `ssAfter` on a cons. -/
lemma ssAfter_cons (c : Char) (r : List Char) :
    ssAfter (c :: r) =
      if c = '(' then
        match ssKey r with
        | some (k, rest) =>
          if "/0/*".data.isPrefixOf rest && closingHead (rest.drop 4) then some k
          else none
        | none => none
      else none := rfl

lemma ssAfter_token {K : String} (hK : keyTokenOk K = true) {close : List Char}
    (hc : closingHead close = true) :
    ssAfter ('(' :: (K.data ++ '/' :: '0' :: '/' :: '*' :: close)) = some K.data := by
  rw [ssAfter_cons, if_pos rfl]
  rw [ssKey_token hK ('0' :: '/' :: '*' :: close)]
  show (if ("/0/*".data.isPrefixOf ('/' :: '0' :: '/' :: '*' :: close) &&
      closingHead (('/' :: '0' :: '/' :: '*' :: close).drop 4)) = true then
      some K.data else none) = some K.data
  rw [if_pos]
  rw [show ('/' :: '0' :: '/' :: '*' :: close).drop 4 = close from rfl, hc]
  rw [show "/0/*".data.isPrefixOf ('/' :: '0' :: '/' :: '*' :: close) = true from
    isPrefixOf_append_self "/0/*".data close]
  rfl

lemma ssTry_eq_some_of {a l k : List Char} (h1 : a.isPrefixOf l = true)
    (h2 : ssAfter (l.drop a.length) = some k) : ssTry a l = some k := by
  simp [ssTry, h1, h2]

lemma ssFind_head {c : Char} {r : List Char} {x : String × String}
    (h : ssMatchAt (c :: r) = some x) : ssFind (c :: r) = some x := by
  have hstep : ssFind (c :: r) =
      match ssMatchAt (c :: r) with
      | some y => some y
      | none => ssFind r := rfl
  rw [hstep, h]

lemma ssFind_step {c : Char} {r : List Char} (h : ssMatchAt (c :: r) = none) :
    ssFind (c :: r) = ssFind r := by
  have hstep : ssFind (c :: r) =
      match ssMatchAt (c :: r) with
      | some y => some y
      | none => ssFind r := rfl
  rw [hstep, h]

lemma ssMatchAt_tpl_pkh {K : String} (hK : keyTokenOk K = true) {close : List Char}
    (hc : closingHead close = true) :
    ssMatchAt ('p' :: 'k' :: 'h' :: '(' :: (K.data ++ '/' :: '0' :: '/' :: '*' :: close)) =
      some ("pkh", K) := by
  have h1 : ssTry "pkh".data
      ('p' :: 'k' :: 'h' :: '(' :: (K.data ++ '/' :: '0' :: '/' :: '*' :: close)) =
      some K.data :=
    ssTry_eq_some_of (by rfl) (ssAfter_token hK hc)
  unfold ssMatchAt
  rw [h1]

lemma ssMatchAt_tpl_wpkh {K : String} (hK : keyTokenOk K = true) {close : List Char}
    (hc : closingHead close = true) :
    ssMatchAt ('w' :: 'p' :: 'k' :: 'h' :: '(' :: (K.data ++ '/' :: '0' :: '/' :: '*' :: close)) =
      some ("wpkh", K) := by
  have h3 : ssTry "wpkh".data
      ('w' :: 'p' :: 'k' :: 'h' :: '(' :: (K.data ++ '/' :: '0' :: '/' :: '*' :: close)) =
      some K.data :=
    ssTry_eq_some_of (by rfl) (ssAfter_token hK hc)
  unfold ssMatchAt
  rw [show ssTry "pkh".data
      ('w' :: 'p' :: 'k' :: 'h' :: '(' :: (K.data ++ '/' :: '0' :: '/' :: '*' :: close)) =
      none from rfl]
  rw [show ssTry "sh(wpkh".data
      ('w' :: 'p' :: 'k' :: 'h' :: '(' :: (K.data ++ '/' :: '0' :: '/' :: '*' :: close)) =
      none from rfl]
  rw [show ssTry "sh(wsh".data
      ('w' :: 'p' :: 'k' :: 'h' :: '(' :: (K.data ++ '/' :: '0' :: '/' :: '*' :: close)) =
      none from rfl]
  rw [h3]

lemma ssMatchAt_tpl_wsh {K : String} (hK : keyTokenOk K = true) {close : List Char}
    (hc : closingHead close = true) :
    ssMatchAt ('w' :: 's' :: 'h' :: '(' :: (K.data ++ '/' :: '0' :: '/' :: '*' :: close)) =
      some ("wsh", K) := by
  have h4 : ssTry "wsh".data
      ('w' :: 's' :: 'h' :: '(' :: (K.data ++ '/' :: '0' :: '/' :: '*' :: close)) =
      some K.data :=
    ssTry_eq_some_of (by rfl) (ssAfter_token hK hc)
  unfold ssMatchAt
  rw [show ssTry "pkh".data
      ('w' :: 's' :: 'h' :: '(' :: (K.data ++ '/' :: '0' :: '/' :: '*' :: close)) =
      none from rfl]
  rw [show ssTry "sh(wpkh".data
      ('w' :: 's' :: 'h' :: '(' :: (K.data ++ '/' :: '0' :: '/' :: '*' :: close)) =
      none from rfl]
  rw [show ssTry "sh(wsh".data
      ('w' :: 's' :: 'h' :: '(' :: (K.data ++ '/' :: '0' :: '/' :: '*' :: close)) =
      none from rfl]
  rw [show ssTry "wpkh".data
      ('w' :: 's' :: 'h' :: '(' :: (K.data ++ '/' :: '0' :: '/' :: '*' :: close)) =
      none from rfl]
  rw [h4]

lemma ssMatchAt_tpl_shwpkh {K : String} (hK : keyTokenOk K = true) {close : List Char}
    (hc : closingHead close = true) :
    ssMatchAt ('s' :: 'h' :: '(' :: 'w' :: 'p' :: 'k' :: 'h' :: '(' ::
        (K.data ++ '/' :: '0' :: '/' :: '*' :: close)) =
      some ("sh(wpkh", K) := by
  have h2 : ssTry "sh(wpkh".data
      ('s' :: 'h' :: '(' :: 'w' :: 'p' :: 'k' :: 'h' :: '(' ::
        (K.data ++ '/' :: '0' :: '/' :: '*' :: close)) =
      some K.data :=
    ssTry_eq_some_of (by rfl) (ssAfter_token hK hc)
  unfold ssMatchAt
  rw [show ssTry "pkh".data
      ('s' :: 'h' :: '(' :: 'w' :: 'p' :: 'k' :: 'h' :: '(' ::
        (K.data ++ '/' :: '0' :: '/' :: '*' :: close)) = none from rfl]
  rw [h2]

lemma ssMatchAt_tpl_shwsh {K : String} (hK : keyTokenOk K = true) {close : List Char}
    (hc : closingHead close = true) :
    ssMatchAt ('s' :: 'h' :: '(' :: 'w' :: 's' :: 'h' :: '(' ::
        (K.data ++ '/' :: '0' :: '/' :: '*' :: close)) =
      some ("sh(wsh", K) := by
  have h3 : ssTry "sh(wsh".data
      ('s' :: 'h' :: '(' :: 'w' :: 's' :: 'h' :: '(' ::
        (K.data ++ '/' :: '0' :: '/' :: '*' :: close)) =
      some K.data :=
    ssTry_eq_some_of (by rfl) (ssAfter_token hK hc)
  unfold ssMatchAt
  rw [show ssTry "pkh".data
      ('s' :: 'h' :: '(' :: 'w' :: 's' :: 'h' :: '(' ::
        (K.data ++ '/' :: '0' :: '/' :: '*' :: close)) = none from rfl]
  rw [show ssTry "sh(wpkh".data
      ('s' :: 'h' :: '(' :: 'w' :: 's' :: 'h' :: '(' ::
        (K.data ++ '/' :: '0' :: '/' :: '*' :: close)) = none from rfl]
  rw [h3]

/-! Codec roundtrip and standard rendering. -/

lemma splitColon_append {kind : List Char} (h : ':' ∉ kind) (raw : List Char) :
    splitColon (kind ++ ':' :: raw) = some (kind, raw) := by
  induction kind with
  | nil => rfl
  | cons c k ih =>
    show splitColon (c :: (k ++ ':' :: raw)) = _
    unfold splitColon
    rw [if_neg (fun hc => h (by simp [hc]))]
    rw [ih (fun hc => h (by simp [hc]))]
    rfl

lemma electrumDecode_encode {kind raw : String} (h : ':' ∉ kind.data) :
    electrumDecode (electrumEncode kind raw) = .ok (kind, raw) := by
  unfold electrumDecode electrumEncode
  rw [data_append, data_append, List.append_assoc]
  rw [show (":".data ++ raw.data : List Char) = ':' :: raw.data from rfl]
  rw [splitColon_append h raw.data]

lemma get_xkey_new {kind K : String} (h : ':' ∉ kind.data) :
    (Keystore.new kind K).get_xkey = .ok (kind, K) := by
  unfold Keystore.new
  split
  · show (Keystore.get_xkey _) = _
    unfold Keystore.get_xkey
    exact electrumDecode_encode h
  · show (Keystore.get_xkey _) = _
    unfold Keystore.get_xkey
    exact electrumDecode_encode h

/-- The standard branch of `to_descriptors` on a keystore built from `kind`
and raw key `K`: `kind(K/0/*)` and `kind(K/1/*)` by plain concatenation (note:
no parenthesis balancing happens on this branch). -/
lemma to_descriptors_standard (a : Addresses) {kind : String} (K : String)
    (h : ':' ∉ kind.data) :
    ElectrumWalletFile.to_descriptors ⟨a, .standard, [Keystore.new kind K]⟩ =
      .ok [kind ++ "(" ++ K ++ "/0/*)", kind ++ "(" ++ K ++ "/1/*)"] := by
  unfold ElectrumWalletFile.to_descriptors
  simp only [get_xkey_new h]

/-! `replace` lemmas for the derivation-path substitution. -/

lemma replaceAll_not_head {pat rep : List Char} {c : Char} {r : List Char}
    (h : pat.isPrefixOf (c :: r) = false) :
    replaceAll pat rep (c :: r) = c :: replaceAll pat rep r := by
  rw [replaceAll_cons]
  rw [if_neg (by simp [h])]

lemma slash_beq_eq_false {c : Char} (h : c.isAlphanum = true) : ('/' == c) = false := by
  cases hbe : ('/' == c)
  · rfl
  · rw [← beq_iff_eq.mp hbe] at h
    exact absurd h (by decide)

lemma replaceAll_slash_alnum (rep : List Char) {w : List Char}
    (hw : ∀ c ∈ w, c.isAlphanum = true) (rest : List Char) :
    replaceAll "/0/*".data rep (w ++ rest) = w ++ replaceAll "/0/*".data rep rest := by
  induction w with
  | nil => rfl
  | cons c w2 ih =>
    show replaceAll "/0/*".data rep (c :: (w2 ++ rest)) = _
    rw [replaceAll_not_head]
    · rw [ih (fun x hx => hw x (by simp [hx]))]
      rfl
    · show (('/' == c) && _) = false
      rw [slash_beq_eq_false (hw c (by simp)), Bool.false_and]

lemma replaceAll_path_hit (close : List Char) :
    replaceAll "/0/*".data "/1/*".data ('/' :: '0' :: '/' :: '*' :: close) =
      '/' :: '1' :: '/' :: '*' :: replaceAll "/0/*".data "/1/*".data close := by
  rw [replaceAll_cons]
  rw [if_pos]
  · rfl
  · simp [isPrefixOf_append_self "/0/*".data close]

/-! Acceptance of the five exact templates by the singlesig recognizer. -/

lemma singlesig_accepts_pkh {K : String} (hK : keyTokenOk K = true) :
    ElectrumWalletFile.from_descriptor_singlesig ("pkh(" ++ K ++ "/0/*)") =
      .ok ⟨Addresses.new, .standard, [Keystore.new "pkh" K]⟩ :=
  from_descriptor_singlesig_eq (by
    show ssFind ('p' :: 'k' :: 'h' :: '(' :: (K.data ++ '/' :: '0' :: '/' :: '*' :: [')'])) =
      some ("pkh", K)
    exact ssFind_head (ssMatchAt_tpl_pkh hK (by decide)))

lemma singlesig_accepts_wpkh {K : String} (hK : keyTokenOk K = true) :
    ElectrumWalletFile.from_descriptor_singlesig ("wpkh(" ++ K ++ "/0/*)") =
      .ok ⟨Addresses.new, .standard, [Keystore.new "wpkh" K]⟩ :=
  from_descriptor_singlesig_eq (by
    show ssFind
        ('w' :: 'p' :: 'k' :: 'h' :: '(' :: (K.data ++ '/' :: '0' :: '/' :: '*' :: [')'])) =
      some ("wpkh", K)
    exact ssFind_head (ssMatchAt_tpl_wpkh hK (by decide)))

lemma singlesig_accepts_wsh {K : String} (hK : keyTokenOk K = true) :
    ElectrumWalletFile.from_descriptor_singlesig ("wsh(" ++ K ++ "/0/*)") =
      .ok ⟨Addresses.new, .standard, [Keystore.new "wsh" K]⟩ :=
  from_descriptor_singlesig_eq (by
    show ssFind
        ('w' :: 's' :: 'h' :: '(' :: (K.data ++ '/' :: '0' :: '/' :: '*' :: [')'])) =
      some ("wsh", K)
    exact ssFind_head (ssMatchAt_tpl_wsh hK (by decide)))

lemma singlesig_accepts_shwpkh {K : String} (hK : keyTokenOk K = true) :
    ElectrumWalletFile.from_descriptor_singlesig ("sh(wpkh(" ++ K ++ "/0/*))") =
      .ok ⟨Addresses.new, .standard, [Keystore.new "sh(wpkh" K]⟩ :=
  from_descriptor_singlesig_eq (by
    show ssFind ('s' :: 'h' :: '(' :: 'w' :: 'p' :: 'k' :: 'h' :: '(' ::
        (K.data ++ '/' :: '0' :: '/' :: '*' :: [')', ')'])) =
      some ("sh(wpkh", K)
    exact ssFind_head (ssMatchAt_tpl_shwpkh hK (by decide)))

lemma singlesig_accepts_shwsh {K : String} (hK : keyTokenOk K = true) :
    ElectrumWalletFile.from_descriptor_singlesig ("sh(wsh(" ++ K ++ "/0/*))") =
      .ok ⟨Addresses.new, .standard, [Keystore.new "sh(wsh" K]⟩ :=
  from_descriptor_singlesig_eq (by
    show ssFind ('s' :: 'h' :: '(' :: 'w' :: 's' :: 'h' :: '(' ::
        (K.data ++ '/' :: '0' :: '/' :: '*' :: [')', ')'])) =
      some ("sh(wsh", K)
    exact ssFind_head (ssMatchAt_tpl_shwsh hK (by decide)))

/-! Dispatch facts: the templates contain no `sortedmulti` when `K` does not. -/

lemma from_descriptor_via_singlesig {s : String}
    (h : hasSubstr s.data "sortedmulti".data = false) :
    ElectrumWalletFile.from_descriptor s = ElectrumWalletFile.from_descriptor_singlesig s := by
  unfold ElectrumWalletFile.from_descriptor
  rw [if_neg (by simp [h])]

/-- Claim C1 (amended): for an exact flat template `pkh(K/0/*)`, `wpkh(K/0/*)`
or `wsh(K/0/*)` (with `K` a key token not containing `sortedmulti`), the
round trip returns exactly the input descriptor and the input with `/0/*`
substituted by `/1/*`.  For the nested templates `sh(wpkh(K/0/*))` and
`sh(wsh(K/0/*))` the wallet is accepted, but both returned descriptors lack
the final closing parenthesis of the input (the singlesig rendering path does
no parenthesis balancing); the change descriptor is still the receive one
with `/0/*` substituted by `/1/*`. -/
theorem singlesig_roundtrip_amended (K : String) (hK : keyTokenOk K = true)
    (hsm : hasSubstr K.data "sortedmulti".data = false) :
    (ElectrumWalletFile.from_descriptor ("pkh(" ++ K ++ "/0/*)") =
        .ok ⟨Addresses.new, .standard, [Keystore.new "pkh" K]⟩ ∧
      ElectrumWalletFile.to_descriptors ⟨Addresses.new, .standard, [Keystore.new "pkh" K]⟩ =
        .ok ["pkh(" ++ K ++ "/0/*)",
             ⟨replaceAll "/0/*".data "/1/*".data ("pkh(" ++ K ++ "/0/*)").data⟩]) ∧
    (ElectrumWalletFile.from_descriptor ("wpkh(" ++ K ++ "/0/*)") =
        .ok ⟨Addresses.new, .standard, [Keystore.new "wpkh" K]⟩ ∧
      ElectrumWalletFile.to_descriptors ⟨Addresses.new, .standard, [Keystore.new "wpkh" K]⟩ =
        .ok ["wpkh(" ++ K ++ "/0/*)",
             ⟨replaceAll "/0/*".data "/1/*".data ("wpkh(" ++ K ++ "/0/*)").data⟩]) ∧
    (ElectrumWalletFile.from_descriptor ("wsh(" ++ K ++ "/0/*)") =
        .ok ⟨Addresses.new, .standard, [Keystore.new "wsh" K]⟩ ∧
      ElectrumWalletFile.to_descriptors ⟨Addresses.new, .standard, [Keystore.new "wsh" K]⟩ =
        .ok ["wsh(" ++ K ++ "/0/*)",
             ⟨replaceAll "/0/*".data "/1/*".data ("wsh(" ++ K ++ "/0/*)").data⟩]) ∧
    (ElectrumWalletFile.from_descriptor ("sh(wpkh(" ++ K ++ "/0/*))") =
        .ok ⟨Addresses.new, .standard, [Keystore.new "sh(wpkh" K]⟩ ∧
      ElectrumWalletFile.to_descriptors ⟨Addresses.new, .standard, [Keystore.new "sh(wpkh" K]⟩ =
        .ok ["sh(wpkh(" ++ K ++ "/0/*)",
             ⟨replaceAll "/0/*".data "/1/*".data ("sh(wpkh(" ++ K ++ "/0/*)").data⟩] ∧
      ("sh(wpkh(" ++ K ++ "/0/*)") ++ ")" = "sh(wpkh(" ++ K ++ "/0/*))") ∧
    (ElectrumWalletFile.from_descriptor ("sh(wsh(" ++ K ++ "/0/*))") =
        .ok ⟨Addresses.new, .standard, [Keystore.new "sh(wsh" K]⟩ ∧
      ElectrumWalletFile.to_descriptors ⟨Addresses.new, .standard, [Keystore.new "sh(wsh" K]⟩ =
        .ok ["sh(wsh(" ++ K ++ "/0/*)",
             ⟨replaceAll "/0/*".data "/1/*".data ("sh(wsh(" ++ K ++ "/0/*)").data⟩] ∧
      ("sh(wsh(" ++ K ++ "/0/*)") ++ ")" = "sh(wsh(" ++ K ++ "/0/*))") := by
  have hKa := keyTokenOk_alnum hK
  have hns1 : hasSubstr ("pkh(" ++ K ++ "/0/*)").data "sortedmulti".data = false := by
    show hasSubstr ('p' :: 'k' :: 'h' :: '(' :: (K.data ++ '/' :: '0' :: '/' :: '*' :: [')']))
      "sortedmulti".data = false
    rw [hasSubstr_cons_of_not_pre (by rfl), hasSubstr_cons_of_not_pre (by rfl),
      hasSubstr_cons_of_not_pre (by rfl), hasSubstr_cons_of_not_pre (by rfl)]
    exact no_sm_keypath hsm (by decide)
  have hns2 : hasSubstr ("wpkh(" ++ K ++ "/0/*)").data "sortedmulti".data = false := by
    show hasSubstr
      ('w' :: 'p' :: 'k' :: 'h' :: '(' :: (K.data ++ '/' :: '0' :: '/' :: '*' :: [')']))
      "sortedmulti".data = false
    rw [hasSubstr_cons_of_not_pre (by rfl), hasSubstr_cons_of_not_pre (by rfl),
      hasSubstr_cons_of_not_pre (by rfl), hasSubstr_cons_of_not_pre (by rfl),
      hasSubstr_cons_of_not_pre (by rfl)]
    exact no_sm_keypath hsm (by decide)
  have hns3 : hasSubstr ("wsh(" ++ K ++ "/0/*)").data "sortedmulti".data = false := by
    show hasSubstr
      ('w' :: 's' :: 'h' :: '(' :: (K.data ++ '/' :: '0' :: '/' :: '*' :: [')']))
      "sortedmulti".data = false
    rw [hasSubstr_cons_of_not_pre (by rfl), hasSubstr_cons_of_not_pre (by rfl),
      hasSubstr_cons_of_not_pre (by rfl), hasSubstr_cons_of_not_pre (by rfl)]
    exact no_sm_keypath hsm (by decide)
  have hns4 : hasSubstr ("sh(wpkh(" ++ K ++ "/0/*))").data "sortedmulti".data = false := by
    show hasSubstr ('s' :: 'h' :: '(' :: 'w' :: 'p' :: 'k' :: 'h' :: '(' ::
      (K.data ++ '/' :: '0' :: '/' :: '*' :: [')', ')'])) "sortedmulti".data = false
    rw [hasSubstr_cons_of_not_pre (by rfl), hasSubstr_cons_of_not_pre (by rfl),
      hasSubstr_cons_of_not_pre (by rfl), hasSubstr_cons_of_not_pre (by rfl),
      hasSubstr_cons_of_not_pre (by rfl), hasSubstr_cons_of_not_pre (by rfl),
      hasSubstr_cons_of_not_pre (by rfl), hasSubstr_cons_of_not_pre (by rfl)]
    exact no_sm_keypath hsm (by decide)
  have hns5 : hasSubstr ("sh(wsh(" ++ K ++ "/0/*))").data "sortedmulti".data = false := by
    show hasSubstr ('s' :: 'h' :: '(' :: 'w' :: 's' :: 'h' :: '(' ::
      (K.data ++ '/' :: '0' :: '/' :: '*' :: [')', ')'])) "sortedmulti".data = false
    rw [hasSubstr_cons_of_not_pre (by rfl), hasSubstr_cons_of_not_pre (by rfl),
      hasSubstr_cons_of_not_pre (by rfl), hasSubstr_cons_of_not_pre (by rfl),
      hasSubstr_cons_of_not_pre (by rfl), hasSubstr_cons_of_not_pre (by rfl),
      hasSubstr_cons_of_not_pre (by rfl)]
    exact no_sm_keypath hsm (by decide)
  have hrep1 : replaceAll "/0/*".data "/1/*".data ("pkh(" ++ K ++ "/0/*)").data =
      ("pkh" ++ "(" ++ K ++ "/1/*)").data := by
    show replaceAll "/0/*".data "/1/*".data
        ('p' :: 'k' :: 'h' :: '(' :: (K.data ++ '/' :: '0' :: '/' :: '*' :: [')'])) =
      'p' :: 'k' :: 'h' :: '(' :: (K.data ++ '/' :: '1' :: '/' :: '*' :: [')'])
    rw [replaceAll_not_head (by rfl), replaceAll_not_head (by rfl),
      replaceAll_not_head (by rfl), replaceAll_not_head (by rfl)]
    rw [replaceAll_slash_alnum _ hKa _, replaceAll_path_hit]
    rfl
  have hrep2 : replaceAll "/0/*".data "/1/*".data ("wpkh(" ++ K ++ "/0/*)").data =
      ("wpkh" ++ "(" ++ K ++ "/1/*)").data := by
    show replaceAll "/0/*".data "/1/*".data
        ('w' :: 'p' :: 'k' :: 'h' :: '(' :: (K.data ++ '/' :: '0' :: '/' :: '*' :: [')'])) =
      'w' :: 'p' :: 'k' :: 'h' :: '(' :: (K.data ++ '/' :: '1' :: '/' :: '*' :: [')'])
    rw [replaceAll_not_head (by rfl), replaceAll_not_head (by rfl),
      replaceAll_not_head (by rfl), replaceAll_not_head (by rfl),
      replaceAll_not_head (by rfl)]
    rw [replaceAll_slash_alnum _ hKa _, replaceAll_path_hit]
    rfl
  have hrep3 : replaceAll "/0/*".data "/1/*".data ("wsh(" ++ K ++ "/0/*)").data =
      ("wsh" ++ "(" ++ K ++ "/1/*)").data := by
    show replaceAll "/0/*".data "/1/*".data
        ('w' :: 's' :: 'h' :: '(' :: (K.data ++ '/' :: '0' :: '/' :: '*' :: [')'])) =
      'w' :: 's' :: 'h' :: '(' :: (K.data ++ '/' :: '1' :: '/' :: '*' :: [')'])
    rw [replaceAll_not_head (by rfl), replaceAll_not_head (by rfl),
      replaceAll_not_head (by rfl), replaceAll_not_head (by rfl)]
    rw [replaceAll_slash_alnum _ hKa _, replaceAll_path_hit]
    rfl
  have hrep4 : replaceAll "/0/*".data "/1/*".data ("sh(wpkh(" ++ K ++ "/0/*)").data =
      ("sh(wpkh" ++ "(" ++ K ++ "/1/*)").data := by
    show replaceAll "/0/*".data "/1/*".data
        ('s' :: 'h' :: '(' :: 'w' :: 'p' :: 'k' :: 'h' :: '(' ::
          (K.data ++ '/' :: '0' :: '/' :: '*' :: [')'])) =
      's' :: 'h' :: '(' :: 'w' :: 'p' :: 'k' :: 'h' :: '(' ::
        (K.data ++ '/' :: '1' :: '/' :: '*' :: [')'])
    rw [replaceAll_not_head (by rfl), replaceAll_not_head (by rfl),
      replaceAll_not_head (by rfl), replaceAll_not_head (by rfl),
      replaceAll_not_head (by rfl), replaceAll_not_head (by rfl),
      replaceAll_not_head (by rfl), replaceAll_not_head (by rfl)]
    rw [replaceAll_slash_alnum _ hKa _, replaceAll_path_hit]
    rfl
  have hrep5 : replaceAll "/0/*".data "/1/*".data ("sh(wsh(" ++ K ++ "/0/*)").data =
      ("sh(wsh" ++ "(" ++ K ++ "/1/*)").data := by
    show replaceAll "/0/*".data "/1/*".data
        ('s' :: 'h' :: '(' :: 'w' :: 's' :: 'h' :: '(' ::
          (K.data ++ '/' :: '0' :: '/' :: '*' :: [')'])) =
      's' :: 'h' :: '(' :: 'w' :: 's' :: 'h' :: '(' ::
        (K.data ++ '/' :: '1' :: '/' :: '*' :: [')'])
    rw [replaceAll_not_head (by rfl), replaceAll_not_head (by rfl),
      replaceAll_not_head (by rfl), replaceAll_not_head (by rfl),
      replaceAll_not_head (by rfl), replaceAll_not_head (by rfl),
      replaceAll_not_head (by rfl)]
    rw [replaceAll_slash_alnum _ hKa _, replaceAll_path_hit]
    rfl
  refine ⟨⟨?_, ?_⟩, ⟨?_, ?_⟩, ⟨?_, ?_⟩, ⟨?_, ?_, ?_⟩, ⟨?_, ?_, ?_⟩⟩
  · exact (from_descriptor_via_singlesig hns1).trans (singlesig_accepts_pkh hK)
  · rw [to_descriptors_standard Addresses.new K (by decide)]
    rw [show ("pkh" ++ "(" ++ K ++ "/1/*)" : String) =
      ⟨replaceAll "/0/*".data "/1/*".data ("pkh(" ++ K ++ "/0/*)").data⟩ from
      string_ext hrep1.symm]
    rfl
  · exact (from_descriptor_via_singlesig hns2).trans (singlesig_accepts_wpkh hK)
  · rw [to_descriptors_standard Addresses.new K (by decide)]
    rw [show ("wpkh" ++ "(" ++ K ++ "/1/*)" : String) =
      ⟨replaceAll "/0/*".data "/1/*".data ("wpkh(" ++ K ++ "/0/*)").data⟩ from
      string_ext hrep2.symm]
    rfl
  · exact (from_descriptor_via_singlesig hns3).trans (singlesig_accepts_wsh hK)
  · rw [to_descriptors_standard Addresses.new K (by decide)]
    rw [show ("wsh" ++ "(" ++ K ++ "/1/*)" : String) =
      ⟨replaceAll "/0/*".data "/1/*".data ("wsh(" ++ K ++ "/0/*)").data⟩ from
      string_ext hrep3.symm]
    rfl
  · exact (from_descriptor_via_singlesig hns4).trans (singlesig_accepts_shwpkh hK)
  · rw [to_descriptors_standard Addresses.new K (by decide)]
    rw [show ("sh(wpkh" ++ "(" ++ K ++ "/1/*)" : String) =
      ⟨replaceAll "/0/*".data "/1/*".data ("sh(wpkh(" ++ K ++ "/0/*)").data⟩ from
      string_ext hrep4.symm]
    rfl
  · exact string_ext (by simp [data_append, List.append_assoc])
  · exact (from_descriptor_via_singlesig hns5).trans (singlesig_accepts_shwsh hK)
  · rw [to_descriptors_standard Addresses.new K (by decide)]
    rw [show ("sh(wsh" ++ "(" ++ K ++ "/1/*)" : String) =
      ⟨replaceAll "/0/*".data "/1/*".data ("sh(wsh(" ++ K ++ "/0/*)").data⟩ from
      string_ext hrep5.symm]
    rfl
  · exact string_ext (by simp [data_append, List.append_assoc])

/-- Claim C1 counterexample: for the accepted standard descriptor
`sh(wsh(tpubA/0/*))`, the first string returned by `to_descriptors` is
`sh(wsh(tpubA/0/*)` (one closing parenthesis short), not the input. -/
theorem singlesig_roundtrip_counterexample :
    ElectrumWalletFile.from_descriptor "sh(wsh(tpubA/0/*))" =
      .ok ⟨Addresses.new, .standard, [Keystore.new "sh(wsh" "tpubA"]⟩ ∧
    ElectrumWalletFile.to_descriptors
        ⟨Addresses.new, .standard, [Keystore.new "sh(wsh" "tpubA"]⟩ =
      .ok ["sh(wsh(tpubA/0/*)", "sh(wsh(tpubA/1/*)"] ∧
    "sh(wsh(tpubA/0/*)" ≠ "sh(wsh(tpubA/0/*))" := by
  refine ⟨by decide, by decide, by decide⟩

/-- Witness for C1 (amended), at `K = "tpubA"`: the flat `pkh` template round
trips exactly. -/
theorem singlesig_roundtrip_amended_witness :
    ElectrumWalletFile.from_descriptor ("pkh(" ++ "tpubA" ++ "/0/*)") =
      .ok ⟨Addresses.new, .standard, [Keystore.new "pkh" "tpubA"]⟩ ∧
    ElectrumWalletFile.to_descriptors ⟨Addresses.new, .standard, [Keystore.new "pkh" "tpubA"]⟩ =
      .ok ["pkh(" ++ "tpubA" ++ "/0/*)",
           ⟨replaceAll "/0/*".data "/1/*".data ("pkh(" ++ "tpubA" ++ "/0/*)").data⟩] :=
  (singlesig_roundtrip_amended "tpubA" (by decide) (by decide)).1

/-! ## C3: what the singlesig recognizer accepts and rejects -/

lemma ssTry_none_of_pre {a l : List Char} (h : a.isPrefixOf l = false) :
    ssTry a l = none := by
  simp [ssTry, h]

lemma ssTry_none_of_after {a l : List Char} (h1 : a.isPrefixOf l = true)
    (h2 : ssAfter (l.drop a.length) = none) : ssTry a l = none := by
  simp [ssTry, h1, h2]

lemma ssMatchAt_none_all {l : List Char}
    (h1 : ssTry "pkh".data l = none)
    (h2 : ssTry "sh(wpkh".data l = none)
    (h3 : ssTry "sh(wsh".data l = none)
    (h4 : ssTry "wpkh".data l = none)
    (h5 : ssTry "wsh".data l = none) : ssMatchAt l = none := by
  simp only [ssMatchAt, h1, h2, h3, h4, h5]

lemma not_paren_ssAfter {m : List Char} (h : '(' ∉ m) : ssAfter m = none := by
  match m with
  | [] => rfl
  | c :: r =>
    rw [ssAfter_cons, if_neg]
    intro hc
    exact h (hc ▸ List.mem_cons_self _ _)

lemma not_paren_ssMatchAt {l : List Char} (h : '(' ∉ l) : ssMatchAt l = none := by
  have htry : ∀ a : List Char, ssTry a l = none := by
    intro a
    unfold ssTry
    split
    · exact not_paren_ssAfter (fun hc => h (List.drop_subset _ _ hc))
    · rfl
  exact ssMatchAt_none_all (htry _) (htry _) (htry _) (htry _) (htry _)

lemma not_paren_ssFind {l : List Char} (h : '(' ∉ l) : ssFind l = none := by
  induction l with
  | nil => rfl
  | cons c r ih =>
    rw [ssFind_step (not_paren_ssMatchAt h)]
    exact ih (fun hc => h (List.mem_cons_of_mem _ hc))

lemma isAlphanum_of_isDigit {c : Char} (h : c.isDigit = true) : c.isAlphanum = true := by
  unfold Char.isAlphanum
  rw [h, Bool.or_true]

/-- A derivation-path run of digits other than the single digit `0` defeats
the literal `/0/*` of the pattern. -/
lemma wrong_path_not_pre {p : List Char} (hpd : ∀ c ∈ p, c.isDigit = true)
    (hpne : p ≠ []) (hp0 : p ≠ ['0']) (close : List Char) :
    "/0/*".data.isPrefixOf ('/' :: (p ++ '/' :: '*' :: close)) = false := by
  match p, hpne with
  | p1 :: pr, _ =>
    by_cases h1 : p1 = '0'
    · subst h1
      have hpr : pr ≠ [] := by
        intro hcon
        exact hp0 (by rw [hcon])
      match pr, hpr with
      | p2 :: pr2, _ =>
        show (('/' == '/') && (('0' == '0') &&
          (('/' == p2) && ("*".data.isPrefixOf (pr2 ++ '/' :: '*' :: close))))) = false
        rw [slash_beq_eq_false (isAlphanum_of_isDigit (hpd p2 (by simp)))]
        rfl
    · show (('/' == '/') && (('0' == p1) && _)) = false
      have : ('0' == p1) = false := by
        cases hbe : ('0' == p1)
        · rfl
        · exact absurd (beq_iff_eq.mp hbe).symm h1
      rw [this]
      rfl

lemma ssAfter_wrong_path {K : String} (hK : keyTokenOk K = true) {p : List Char}
    (hpd : ∀ c ∈ p, c.isDigit = true) (hpne : p ≠ []) (hp0 : p ≠ ['0']) (close : List Char) :
    ssAfter ('(' :: (K.data ++ '/' :: (p ++ '/' :: '*' :: close))) = none := by
  rw [ssAfter_cons, if_pos rfl, ssKey_token hK (p ++ '/' :: '*' :: close)]
  show (if ("/0/*".data.isPrefixOf ('/' :: (p ++ '/' :: '*' :: close)) &&
      closingHead (('/' :: (p ++ '/' :: '*' :: close)).drop 4)) = true then
      some K.data else none) = none
  rw [if_neg (by simp [wrong_path_not_pre hpd hpne hp0 close])]

lemma keyTokenOk_head {K : String} (h : keyTokenOk K = true) :
    ∃ rest, K.data = 't' :: rest ∨ K.data = 'x' :: rest := by
  unfold keyTokenOk at h
  split at h
  · rename_i c p a b w heq
    simp only [Bool.and_eq_true, Bool.or_eq_true, decide_eq_true_eq] at h
    obtain ⟨⟨⟨⟨hc, _⟩, _⟩, _⟩, _⟩ := h
    rcases hc with hc | hc <;> subst hc
    · exact ⟨_, Or.inl heq⟩
    · exact ⟨_, Or.inr heq⟩
  · exact absurd h (by simp)

/-- A position reading `sh(` immediately before the key token: no alternative
of the singlesig pattern can match (`sh(wpkh` and `sh(wsh` both need a `w`
where the key token starts with `t` or `x`). -/
lemma ssMatchAt_shparen_key {K : String} (hK : keyTokenOk K = true) (tail : List Char) :
    ssMatchAt ('s' :: 'h' :: '(' :: (K.data ++ tail)) = none := by
  obtain ⟨rest, hc⟩ := keyTokenOk_head hK
  rcases hc with hc | hc <;> rw [hc] <;> rfl

lemma ssMatchAt_pkh_at {K : String} (T : List Char)
    (h : ssAfter ('(' :: (K.data ++ T)) = none) :
    ssMatchAt ('p' :: 'k' :: 'h' :: '(' :: (K.data ++ T)) = none := by
  apply ssMatchAt_none_all
  · exact ssTry_none_of_after (by rfl) h
  · exact ssTry_none_of_pre (by rfl)
  · exact ssTry_none_of_pre (by rfl)
  · exact ssTry_none_of_pre (by rfl)
  · exact ssTry_none_of_pre (by rfl)

lemma ssMatchAt_wpkh_at {K : String} (T : List Char)
    (h : ssAfter ('(' :: (K.data ++ T)) = none) :
    ssMatchAt ('w' :: 'p' :: 'k' :: 'h' :: '(' :: (K.data ++ T)) = none := by
  apply ssMatchAt_none_all
  · exact ssTry_none_of_pre (by rfl)
  · exact ssTry_none_of_pre (by rfl)
  · exact ssTry_none_of_pre (by rfl)
  · exact ssTry_none_of_after (by rfl) h
  · exact ssTry_none_of_pre (by rfl)

lemma ssMatchAt_wsh_at {K : String} (T : List Char)
    (h : ssAfter ('(' :: (K.data ++ T)) = none) :
    ssMatchAt ('w' :: 's' :: 'h' :: '(' :: (K.data ++ T)) = none := by
  apply ssMatchAt_none_all
  · exact ssTry_none_of_pre (by rfl)
  · exact ssTry_none_of_pre (by rfl)
  · exact ssTry_none_of_pre (by rfl)
  · exact ssTry_none_of_pre (by rfl)
  · exact ssTry_none_of_after (by rfl) h

lemma ssMatchAt_shwpkh_at {K : String} (T : List Char)
    (h : ssAfter ('(' :: (K.data ++ T)) = none) :
    ssMatchAt ('s' :: 'h' :: '(' :: 'w' :: 'p' :: 'k' :: 'h' :: '(' :: (K.data ++ T)) =
      none := by
  apply ssMatchAt_none_all
  · exact ssTry_none_of_pre (by rfl)
  · exact ssTry_none_of_after (by rfl) h
  · exact ssTry_none_of_pre (by rfl)
  · exact ssTry_none_of_pre (by rfl)
  · exact ssTry_none_of_pre (by rfl)

lemma ssMatchAt_shwsh_at {K : String} (T : List Char)
    (h : ssAfter ('(' :: (K.data ++ T)) = none) :
    ssMatchAt ('s' :: 'h' :: '(' :: 'w' :: 's' :: 'h' :: '(' :: (K.data ++ T)) = none := by
  apply ssMatchAt_none_all
  · exact ssTry_none_of_pre (by rfl)
  · exact ssTry_none_of_pre (by rfl)
  · exact ssTry_none_of_after (by rfl) h
  · exact ssTry_none_of_pre (by rfl)
  · exact ssTry_none_of_pre (by rfl)

lemma no_paren_keypath {K : String} (hK : keyTokenOk K = true) {p : List Char}
    (hpd : ∀ c ∈ p, c.isDigit = true) {close : List Char} (hcl : '(' ∉ close) :
    '(' ∉ K.data ++ '/' :: (p ++ '/' :: '*' :: close) := by
  intro hm
  rcases List.mem_append.mp hm with hm | hm
  · have := keyTokenOk_alnum hK _ hm
    exact absurd this (by decide)
  · rcases List.mem_cons.mp hm with hm | hm
    · exact absurd hm.symm (by decide)
    · rcases List.mem_append.mp hm with hm | hm
      · have := hpd _ hm
        exact absurd this (by decide)
      · rcases List.mem_cons.mp hm with hm | hm
        · exact absurd hm.symm (by decide)
        · rcases List.mem_cons.mp hm with hm | hm
          · exact absurd hm.symm (by decide)
          · exact hcl hm

lemma ssFind_wrong_pkh {K : String} (hK : keyTokenOk K = true) {p : List Char}
    (hpd : ∀ c ∈ p, c.isDigit = true) (hpne : p ≠ []) (hp0 : p ≠ ['0']) :
    ssFind ('p' :: 'k' :: 'h' :: '(' :: (K.data ++ '/' :: (p ++ '/' :: '*' :: [')']))) =
      none := by
  have hafter := ssAfter_wrong_path hK hpd hpne hp0 [')']
  rw [ssFind_step (ssMatchAt_pkh_at _ hafter)]
  rw [ssFind_step (by rfl), ssFind_step (by rfl), ssFind_step (by rfl)]
  exact not_paren_ssFind (no_paren_keypath hK hpd (by decide))

lemma ssFind_wrong_wpkh {K : String} (hK : keyTokenOk K = true) {p : List Char}
    (hpd : ∀ c ∈ p, c.isDigit = true) (hpne : p ≠ []) (hp0 : p ≠ ['0']) :
    ssFind ('w' :: 'p' :: 'k' :: 'h' :: '(' :: (K.data ++ '/' :: (p ++ '/' :: '*' :: [')']))) =
      none := by
  have hafter := ssAfter_wrong_path hK hpd hpne hp0 [')']
  rw [ssFind_step (ssMatchAt_wpkh_at _ hafter)]
  rw [ssFind_step (ssMatchAt_pkh_at _ hafter)]
  rw [ssFind_step (by rfl), ssFind_step (by rfl), ssFind_step (by rfl)]
  exact not_paren_ssFind (no_paren_keypath hK hpd (by decide))

lemma ssFind_wrong_wsh {K : String} (hK : keyTokenOk K = true) {p : List Char}
    (hpd : ∀ c ∈ p, c.isDigit = true) (hpne : p ≠ []) (hp0 : p ≠ ['0']) :
    ssFind ('w' :: 's' :: 'h' :: '(' :: (K.data ++ '/' :: (p ++ '/' :: '*' :: [')']))) =
      none := by
  have hafter := ssAfter_wrong_path hK hpd hpne hp0 [')']
  rw [ssFind_step (ssMatchAt_wsh_at _ hafter)]
  rw [ssFind_step (ssMatchAt_shparen_key hK _)]
  rw [ssFind_step (by rfl), ssFind_step (by rfl)]
  exact not_paren_ssFind (no_paren_keypath hK hpd (by decide))

lemma ssFind_wrong_shwpkh {K : String} (hK : keyTokenOk K = true) {p : List Char}
    (hpd : ∀ c ∈ p, c.isDigit = true) (hpne : p ≠ []) (hp0 : p ≠ ['0']) :
    ssFind ('s' :: 'h' :: '(' :: 'w' :: 'p' :: 'k' :: 'h' :: '(' ::
      (K.data ++ '/' :: (p ++ '/' :: '*' :: [')', ')']))) = none := by
  have hafter := ssAfter_wrong_path hK hpd hpne hp0 [')', ')']
  rw [ssFind_step (ssMatchAt_shwpkh_at _ hafter)]
  rw [ssFind_step (by rfl), ssFind_step (by rfl)]
  rw [ssFind_step (ssMatchAt_wpkh_at _ hafter)]
  rw [ssFind_step (ssMatchAt_pkh_at _ hafter)]
  rw [ssFind_step (by rfl), ssFind_step (by rfl), ssFind_step (by rfl)]
  exact not_paren_ssFind (no_paren_keypath hK hpd (by decide))

lemma ssFind_wrong_shwsh {K : String} (hK : keyTokenOk K = true) {p : List Char}
    (hpd : ∀ c ∈ p, c.isDigit = true) (hpne : p ≠ []) (hp0 : p ≠ ['0']) :
    ssFind ('s' :: 'h' :: '(' :: 'w' :: 's' :: 'h' :: '(' ::
      (K.data ++ '/' :: (p ++ '/' :: '*' :: [')', ')']))) = none := by
  have hafter := ssAfter_wrong_path hK hpd hpne hp0 [')', ')']
  rw [ssFind_step (ssMatchAt_shwsh_at _ hafter)]
  rw [ssFind_step (by rfl), ssFind_step (by rfl)]
  rw [ssFind_step (ssMatchAt_wsh_at _ hafter)]
  rw [ssFind_step (ssMatchAt_shparen_key hK _)]
  rw [ssFind_step (by rfl), ssFind_step (by rfl)]
  exact not_paren_ssFind (no_paren_keypath hK hpd (by decide))

/-- Claim C3 counterexample: the singlesig pattern is applied unanchored and
`\)+` accepts extra parentheses, so inputs that are not one of the five exact
templates are accepted: a template with an extra `)` and a template embedded
in arbitrary text both parse. -/
theorem singlesig_recognition_counterexample :
    ElectrumWalletFile.from_descriptor_singlesig "pkh(tpubA/0/*))" =
      .ok ⟨Addresses.new, .standard, [Keystore.new "pkh" "tpubA"]⟩ ∧
    ElectrumWalletFile.from_descriptor_singlesig "zzzpkh(tpubA/0/*)zzz" =
      .ok ⟨Addresses.new, .standard, [Keystore.new "pkh" "tpubA"]⟩ := by
  constructor <;> decide

/-- Claim C3 (amended): the five exact templates are accepted, the returned
kind is the template kind and the returned raw key is `K`; an exact-shaped
input whose derivation path is a digit run other than `0` is rejected with
the unrecognized-descriptor error.  (Acceptance is not limited to the exact
templates: the pattern is unanchored and tolerates extra closing
parentheses, see the counterexample.) -/
theorem singlesig_recognition_amended (K : String) (hK : keyTokenOk K = true)
    (p : List Char) (hpd : ∀ c ∈ p, c.isDigit = true) (hpne : p ≠ []) (hp0 : p ≠ ['0']) :
    (ElectrumWalletFile.from_descriptor_singlesig ("pkh(" ++ K ++ "/0/*)") =
        .ok ⟨Addresses.new, .standard, [Keystore.new "pkh" K]⟩ ∧
      ElectrumWalletFile.from_descriptor_singlesig ("wpkh(" ++ K ++ "/0/*)") =
        .ok ⟨Addresses.new, .standard, [Keystore.new "wpkh" K]⟩ ∧
      ElectrumWalletFile.from_descriptor_singlesig ("wsh(" ++ K ++ "/0/*)") =
        .ok ⟨Addresses.new, .standard, [Keystore.new "wsh" K]⟩ ∧
      ElectrumWalletFile.from_descriptor_singlesig ("sh(wpkh(" ++ K ++ "/0/*))") =
        .ok ⟨Addresses.new, .standard, [Keystore.new "sh(wpkh" K]⟩ ∧
      ElectrumWalletFile.from_descriptor_singlesig ("sh(wsh(" ++ K ++ "/0/*))") =
        .ok ⟨Addresses.new, .standard, [Keystore.new "sh(wsh" K]⟩) ∧
    (ElectrumWalletFile.from_descriptor_singlesig
        ⟨'p' :: 'k' :: 'h' :: '(' :: (K.data ++ '/' :: (p ++ '/' :: '*' :: [')']))⟩ =
        .err .unknownDescriptor ∧
      ElectrumWalletFile.from_descriptor_singlesig
        ⟨'w' :: 'p' :: 'k' :: 'h' :: '(' :: (K.data ++ '/' :: (p ++ '/' :: '*' :: [')']))⟩ =
        .err .unknownDescriptor ∧
      ElectrumWalletFile.from_descriptor_singlesig
        ⟨'w' :: 's' :: 'h' :: '(' :: (K.data ++ '/' :: (p ++ '/' :: '*' :: [')']))⟩ =
        .err .unknownDescriptor ∧
      ElectrumWalletFile.from_descriptor_singlesig
        ⟨'s' :: 'h' :: '(' :: 'w' :: 'p' :: 'k' :: 'h' :: '(' ::
          (K.data ++ '/' :: (p ++ '/' :: '*' :: [')', ')']))⟩ =
        .err .unknownDescriptor ∧
      ElectrumWalletFile.from_descriptor_singlesig
        ⟨'s' :: 'h' :: '(' :: 'w' :: 's' :: 'h' :: '(' ::
          (K.data ++ '/' :: (p ++ '/' :: '*' :: [')', ')']))⟩ =
        .err .unknownDescriptor) := by
  refine ⟨⟨singlesig_accepts_pkh hK, singlesig_accepts_wpkh hK, singlesig_accepts_wsh hK,
    singlesig_accepts_shwpkh hK, singlesig_accepts_shwsh hK⟩, ?_, ?_, ?_, ?_, ?_⟩
  · exact from_descriptor_singlesig_none (ssFind_wrong_pkh hK hpd hpne hp0)
  · exact from_descriptor_singlesig_none (ssFind_wrong_wpkh hK hpd hpne hp0)
  · exact from_descriptor_singlesig_none (ssFind_wrong_wsh hK hpd hpne hp0)
  · exact from_descriptor_singlesig_none (ssFind_wrong_shwpkh hK hpd hpne hp0)
  · exact from_descriptor_singlesig_none (ssFind_wrong_shwsh hK hpd hpne hp0)

/-- Witness for C3 (amended): `wpkh(tpubA/0/*)` is accepted with kind `wpkh`
and key `tpubA`; `pkh(tpubA/1/*)` (change path) is rejected. -/
theorem singlesig_recognition_amended_witness :
    ElectrumWalletFile.from_descriptor_singlesig ("wpkh(" ++ "tpubA" ++ "/0/*)") =
      .ok ⟨Addresses.new, .standard, [Keystore.new "wpkh" "tpubA"]⟩ ∧
    ElectrumWalletFile.from_descriptor_singlesig "pkh(tpubA/1/*)" =
      .err .unknownDescriptor := by
  have h := singlesig_recognition_amended "tpubA" (by decide) ['1'] (by decide) (by decide)
    (by decide)
  refine ⟨h.1.2.1, ?_⟩
  rw [show ("pkh(tpubA/1/*)" : String) =
    ⟨'p' :: 'k' :: 'h' :: '(' :: ("tpubA".data ++ '/' :: (['1'] ++ '/' :: '*' :: [')']))⟩ from
    by decide]
  exact h.2.1

/-! ## C2: document round trip

The on-disk document is modelled as the ordered list of its named sections.
`fieldOk` says a field is recognized (or ignorable) and carries a value of
the shape its classification expects; the three projections extract the
`addresses` sections, the `wallet_type` texts, and the keystore list. -/

/-- The field is recognized/ignorable and its value has the expected shape
(for `wallet_type`, additionally that its text parses). -/
def fieldOk (f : String × DocValue) : Bool :=
  match classifyField f.1, f.2 with
  | .ok .addrs, .vAddrs _ => true
  | .ok .keyst, .vKs _ => true
  | .ok .walTyp, .vStr s =>
    (match WalletType.from_str s with
     | .ok _ => true
     | _ => false)
  | .ok .addrHistory, .vHist _ => true
  | .ok .winPosQt, .vWinPos _ _ _ _ => true
  | .ok .ignoreBool, .vBool _ => true
  | .ok .ignoreString, .vStr _ => true
  | .ok .ignoreNumber, .vNum _ => true
  | .ok .ignoreVec, .vList _ => true
  | .ok .ignoreMap, .vMap _ => true
  | _, _ => false

/-- The `addresses` sections of a document, in order. -/
def docAddrsP (doc : List (String × DocValue)) : List Addresses :=
  doc.filterMap fun f =>
    match classifyField f.1, f.2 with
    | .ok .addrs, .vAddrs a => some a
    | _, _ => none

/-- The `wallet_type` section texts of a document, in order. -/
def docWTstrs (doc : List (String × DocValue)) : List String :=
  doc.filterMap fun f =>
    match classifyField f.1, f.2 with
    | .ok .walTyp, .vStr s => some s
    | _, _ => none

/-- The parsed `wallet_type` values of a document, in order. -/
def docWTvals (doc : List (String × DocValue)) : List WalletType :=
  doc.filterMap fun f =>
    match classifyField f.1, f.2 with
    | .ok .walTyp, .vStr s =>
      (match WalletType.from_str s with
       | .ok v => some v
       | _ => none)
    | _, _ => none

/-- The keystore sections of a document, in order (document order, regardless
of the numeric suffix of `x<n>/` names). -/
def docKsP (doc : List (String × DocValue)) : List Keystore :=
  doc.filterMap fun f =>
    match classifyField f.1, f.2 with
    | .ok .keyst, .vKs k => some k
    | _, _ => none

/-- Last element of a list, or the default. -/
def lastOr : List α → α → α
  | [], d => d
  | x :: l, _ => lastOr l x

/-- Claim C2 counterexample: a document built only from recognized fields
whose `wallet_type` text carries a leading zero (`02of3`) parses, but renders
back with the canonical text `2of3`: the round trip is not the identity on
the `wallet_type` section. -/
theorem document_roundtrip_counterexample :
    parseDoc [("addresses", .vAddrs ⟨[], []⟩), ("wallet_type", .vStr "02of3"),
        ("x1/", .vKs ⟨"bip32", none, "wsh:tpubA"⟩), ("x2/", .vKs ⟨"bip32", none, "wsh:tpubB"⟩),
        ("x3/", .vKs ⟨"bip32", none, "wsh:tpubC"⟩)] =
      .ok ⟨⟨[], []⟩, .multisig 2 3,
        [⟨"bip32", none, "wsh:tpubA"⟩, ⟨"bip32", none, "wsh:tpubB"⟩,
         ⟨"bip32", none, "wsh:tpubC"⟩]⟩ ∧
    serializeWallet ⟨⟨[], []⟩, .multisig 2 3,
        [⟨"bip32", none, "wsh:tpubA"⟩, ⟨"bip32", none, "wsh:tpubB"⟩,
         ⟨"bip32", none, "wsh:tpubC"⟩]⟩ =
      .ok [("addresses", .vAddrs ⟨[], []⟩), ("wallet_type", .vStr "2of3"),
        ("x1/", .vKs ⟨"bip32", none, "wsh:tpubA"⟩), ("x2/", .vKs ⟨"bip32", none, "wsh:tpubB"⟩),
        ("x3/", .vKs ⟨"bip32", none, "wsh:tpubC"⟩)] ∧
    ("2of3" : String) ≠ "02of3" := by
  refine ⟨by decide, by decide, by decide⟩

/-! Decimal digits of `Nat.repr`. -/

lemma digitChar_isDigit {m : Nat} (h : m < 10) : (Nat.digitChar m).isDigit = true := by
  interval_cases m <;> decide

lemma toDigitsCore_digits :
    ∀ (fuel n : Nat) (acc : List Char), (∀ c ∈ acc, c.isDigit = true) →
      ∀ c ∈ Nat.toDigitsCore 10 fuel n acc, c.isDigit = true := by
  intro fuel
  induction fuel with
  | zero =>
    intro n acc hacc c hc
    exact hacc c hc
  | succ f ih =>
    intro n acc hacc c hc
    rw [show Nat.toDigitsCore 10 (f + 1) n acc =
        (if n / 10 = 0 then Nat.digitChar (n % 10) :: acc
         else Nat.toDigitsCore 10 f (n / 10) (Nat.digitChar (n % 10) :: acc)) from rfl] at hc
    have hd : (Nat.digitChar (n % 10)).isDigit = true :=
      digitChar_isDigit (Nat.mod_lt _ (by omega))
    have hacc2 : ∀ x ∈ Nat.digitChar (n % 10) :: acc, x.isDigit = true := by
      intro x hx
      rcases List.mem_cons.mp hx with hx | hx
      · rw [hx]; exact hd
      · exact hacc x hx
    split at hc
    · exact hacc2 c hc
    · exact ih (n / 10) _ hacc2 c hc

lemma repr_digits (n : Nat) : ∀ c ∈ (Nat.repr n).data, c.isDigit = true := by
  intro c hc
  exact toDigitsCore_digits (n + 1) n [] (by simp) c hc

lemma toDigitsCore_ne_nil :
    ∀ (fuel n : Nat) (acc : List Char), acc ≠ [] → Nat.toDigitsCore 10 fuel n acc ≠ [] := by
  intro fuel
  induction fuel with
  | zero => intro n acc hacc; exact hacc
  | succ f ih =>
    intro n acc hacc
    rw [show Nat.toDigitsCore 10 (f + 1) n acc =
        (if n / 10 = 0 then Nat.digitChar (n % 10) :: acc
         else Nat.toDigitsCore 10 f (n / 10) (Nat.digitChar (n % 10) :: acc)) from rfl]
    split
    · simp
    · exact ih (n / 10) _ (by simp)

lemma repr_ne_nil (n : Nat) : (Nat.repr n).data ≠ [] := by
  have : (Nat.repr n).data = Nat.toDigitsCore 10 (n + 1) n [] := rfl
  rw [this]
  rw [show Nat.toDigitsCore 10 (n + 1) n [] =
      (if n / 10 = 0 then [Nat.digitChar (n % 10)]
       else Nat.toDigitsCore 10 n (n / 10) [Nat.digitChar (n % 10)]) from rfl]
  split
  · simp
  · exact toDigitsCore_ne_nil n (n / 10) _ (by simp)

/-- A rendered keystore field name `x<i>/` classifies as a keystore field. -/
lemma classify_xfield (i : Nat) : classifyField ("x" ++ Nat.repr i ++ "/") = .ok .keyst := by
  have htw : ((Nat.repr i).data ++ ['/']).takeWhile Char.isDigit = (Nat.repr i).data := by
    rw [takeWhile_append_of_all _ (repr_digits i), takeWhile_cons_neg _ (by decide),
      List.append_nil]
  have hdw : ((Nat.repr i).data ++ ['/']).dropWhile Char.isDigit = ['/'] := by
    rw [dropWhile_append_of_all _ (repr_digits i), dropWhile_cons_neg _ (by decide)]
  have hm : clMatchAt ('x' :: ((Nat.repr i).data ++ ['/'])) = some none := by
    simp only [clMatchAt]
    rw [htw, hdw]
    simp [repr_ne_nil i, closingSlash]
  have hfind : clFind ('x' :: ((Nat.repr i).data ++ ['/'])) = some none := by
    rw [show clFind ('x' :: ((Nat.repr i).data ++ ['/'])) =
        (match clMatchAt ('x' :: ((Nat.repr i).data ++ ['/'])) with
         | some x => some x
         | none => clFind ((Nat.repr i).data ++ ['/'])) from rfl, hm]
  unfold classifyField
  rw [show ("x" ++ Nat.repr i ++ "/").data = 'x' :: ((Nat.repr i).data ++ ['/']) from rfl]
  rw [hfind]

/-- The deserializer fold on a document of recognized fields: the last
`addresses` and `wallet_type` sections win, keystores accumulate in order. -/
lemma visitFields_ok (doc : List (String × DocValue)) :
    ∀ (a : Addresses) (ks : List Keystore) (wt : WalletType), doc.all fieldOk = true →
      visitFields doc a ks wt =
        .ok ⟨lastOr (docAddrsP doc) a, lastOr (docWTvals doc) wt, ks ++ docKsP doc⟩ := by
  induction doc with
  | nil =>
    intro a ks wt _
    simp [visitFields, docAddrsP, docWTvals, docKsP, lastOr]
  | cons f rest ih =>
    intro a ks wt h
    obtain ⟨n, v⟩ := f
    rw [List.all_cons, Bool.and_eq_true] at h
    obtain ⟨hf, hrest⟩ := h
    cases hcf : classifyField n with
    | err e => simp [fieldOk, hcf] at hf
    | panic => simp [fieldOk, hcf] at hf
    | ok fld =>
      cases fld <;> cases v <;>
        first
        | (simp [fieldOk, hcf] at hf
           done)
        | (simp only [visitFields, hcf]
           rw [ih _ _ _ hrest]
           simp [docAddrsP, docWTvals, docKsP, List.filterMap_cons, hcf, lastOr,
             List.append_assoc, List.cons_append, List.nil_append])
        | (rename_i s
           rcases hws : WalletType.from_str s with wt2 | e | _
           · simp only [visitFields, hcf, hws]
             rw [ih _ _ _ hrest]
             simp [docAddrsP, docWTvals, docKsP, List.filterMap_cons, hcf, hws, lastOr]
           · simp [fieldOk, hcf, hws] at hf
           · simp [fieldOk, hcf, hws] at hf)

lemma docAddrsP_append (u v : List (String × DocValue)) :
    docAddrsP (u ++ v) = docAddrsP u ++ docAddrsP v := by
  unfold docAddrsP; exact List.filterMap_append _ _ _

lemma docWTstrs_append (u v : List (String × DocValue)) :
    docWTstrs (u ++ v) = docWTstrs u ++ docWTstrs v := by
  unfold docWTstrs; exact List.filterMap_append _ _ _

lemma docKsP_append (u v : List (String × DocValue)) :
    docKsP (u ++ v) = docKsP u ++ docKsP v := by
  unfold docKsP; exact List.filterMap_append _ _ _

/-- The serializer's `x<i+1>/` keystore entries contribute nothing to the
address or wallet-type projections, and project back to the keystore list. -/
lemma xentries_proj (ks : List Keystore) : ∀ n : Nat,
    docAddrsP ((List.enumFrom n ks).map
        fun q => ("x" ++ Nat.repr (q.1 + 1) ++ "/", DocValue.vKs q.2)) = [] ∧
    docWTstrs ((List.enumFrom n ks).map
        fun q => ("x" ++ Nat.repr (q.1 + 1) ++ "/", DocValue.vKs q.2)) = [] ∧
    docKsP ((List.enumFrom n ks).map
        fun q => ("x" ++ Nat.repr (q.1 + 1) ++ "/", DocValue.vKs q.2)) = ks := by
  induction ks with
  | nil => intro n; exact ⟨rfl, rfl, rfl⟩
  | cons k ks ih =>
    intro n
    have hcx := classify_xfield (n + 1)
    obtain ⟨h2a, h2s, h2k⟩ := ih (n + 1)
    refine ⟨?_, ?_, ?_⟩
    · unfold docAddrsP at h2a ⊢
      simp only [List.enumFrom, List.map_cons, List.filterMap_cons]
      simp [hcx, h2a]
    · unfold docWTstrs at h2s ⊢
      simp only [List.enumFrom, List.map_cons, List.filterMap_cons]
      simp [hcx, h2s]
    · unfold docKsP at h2k ⊢
      simp only [List.enumFrom, List.map_cons, List.filterMap_cons]
      simp [hcx, h2k]

/-- The round trip, observed through the three projections. -/
def roundProj (w : ElectrumWalletFile) : RRes (List Addresses × List String × List Keystore) :=
  match serializeWallet w with
  | .ok out => .ok (docAddrsP out, docWTstrs out, docKsP out)
  | .err e => .err e
  | .panic => .panic

lemma roundProj_ok (w : ElectrumWalletFile) (out : List (String × DocValue))
    (h : serializeWallet w = .ok out) :
    roundProj w = .ok (docAddrsP out, docWTstrs out, docKsP out) := by
  unfold roundProj
  rw [h]

/-- Claim C2 (amended): for a document of recognized fields holding exactly
one `addresses` section `a`, exactly one `wallet_type` section whose text `s`
is the canonical rendering of its parsed value `wt` (the parser accepts
non-canonical texts such as `02of3`, which do not survive the trip), and —
when `wt` is Standard — exactly one keystore section (extra ones are silently
dropped by `keystores[0]`), parsing yields exactly `(a, wt, keystores)` and
re-serializing restores the three projections: the addresses section, the
wallet-type text, and the ordered keystore list. -/
theorem document_roundtrip_amended (doc : List (String × DocValue))
    (a : Addresses) (s : String) (wt : WalletType)
    (hok : doc.all fieldOk = true)
    (ha : docAddrsP doc = [a])
    (hs : docWTstrs doc = [s])
    (hv : docWTvals doc = [wt])
    (hr : wt.render = s)
    (hstd : wt = .standard → (docKsP doc).length = 1) :
    parseDoc doc = .ok ⟨a, wt, docKsP doc⟩ ∧
    roundProj ⟨a, wt, docKsP doc⟩ = .ok (docAddrsP doc, docWTstrs doc, docKsP doc) := by
  have hcA : classifyField "addresses" = .ok .addrs := by decide
  have hcW : classifyField "wallet_type" = .ok .walTyp := by decide
  have hcK : classifyField "keystore" = .ok .keyst := by decide
  constructor
  · rw [show parseDoc doc = visitFields doc Addresses.new [] WalletType.standard from rfl,
      visitFields_ok doc Addresses.new [] WalletType.standard hok, ha, hv]
    simp [lastOr]
  · rw [ha, hs]
    cases wt with
    | standard =>
      obtain ⟨k, hk⟩ : ∃ k, docKsP doc = [k] := by
        have hl := hstd rfl
        cases hks : docKsP doc with
        | nil => rw [hks] at hl; simp at hl
        | cons k t =>
          rw [hks] at hl
          cases t with
          | nil => exact ⟨k, rfl⟩
          | cons => simp at hl
      rw [hk]
      have hser : serializeWallet ⟨a, .standard, [k]⟩ =
          .ok [("addresses", DocValue.vAddrs a),
               ("wallet_type", DocValue.vStr (WalletType.render .standard)),
               ("keystore", DocValue.vKs k)] := rfl
      rw [roundProj_ok _ _ hser, ← hr]
      simp [docAddrsP, docWTstrs, docKsP, List.filterMap_cons, hcA, hcW, hcK]
    | multisig m t =>
      have hser : serializeWallet ⟨a, .multisig m t, docKsP doc⟩ =
          .ok ([("addresses", DocValue.vAddrs a),
                ("wallet_type", DocValue.vStr (WalletType.render (.multisig m t)))] ++
            (List.enumFrom 0 (docKsP doc)).map
              fun q => ("x" ++ Nat.repr (q.1 + 1) ++ "/", DocValue.vKs q.2)) := rfl
      obtain ⟨hxa, hxs, hxk⟩ := xentries_proj (docKsP doc) 0
      rw [roundProj_ok _ _ hser, docAddrsP_append, docWTstrs_append, docKsP_append,
        hxa, hxs, hxk, ← hr]
      simp [docAddrsP, docWTstrs, docKsP, List.filterMap_cons, hcA, hcW]

/-- Witness for the amended C2 theorem: a concrete 2-of-2 document round
trips through parse and serialize with its three projections intact. -/
theorem document_roundtrip_amended_witness :
    parseDoc [("addresses", .vAddrs ⟨[], []⟩), ("wallet_type", .vStr "2of2"),
        ("x1/", .vKs ⟨"bip32", none, "wsh:tpubA"⟩), ("x2/", .vKs ⟨"bip32", none, "wsh:tpubB"⟩)] =
      .ok ⟨⟨[], []⟩, .multisig 2 2,
        docKsP [("addresses", .vAddrs ⟨[], []⟩), ("wallet_type", .vStr "2of2"),
          ("x1/", .vKs ⟨"bip32", none, "wsh:tpubA"⟩),
          ("x2/", .vKs ⟨"bip32", none, "wsh:tpubB"⟩)]⟩ ∧
    roundProj ⟨⟨[], []⟩, .multisig 2 2,
        docKsP [("addresses", .vAddrs ⟨[], []⟩), ("wallet_type", .vStr "2of2"),
          ("x1/", .vKs ⟨"bip32", none, "wsh:tpubA"⟩),
          ("x2/", .vKs ⟨"bip32", none, "wsh:tpubB"⟩)]⟩ =
      .ok (docAddrsP [("addresses", .vAddrs ⟨[], []⟩), ("wallet_type", .vStr "2of2"),
          ("x1/", .vKs ⟨"bip32", none, "wsh:tpubA"⟩),
          ("x2/", .vKs ⟨"bip32", none, "wsh:tpubB"⟩)],
        docWTstrs [("addresses", .vAddrs ⟨[], []⟩), ("wallet_type", .vStr "2of2"),
          ("x1/", .vKs ⟨"bip32", none, "wsh:tpubA"⟩),
          ("x2/", .vKs ⟨"bip32", none, "wsh:tpubB"⟩)],
        docKsP [("addresses", .vAddrs ⟨[], []⟩), ("wallet_type", .vStr "2of2"),
          ("x1/", .vKs ⟨"bip32", none, "wsh:tpubA"⟩),
          ("x2/", .vKs ⟨"bip32", none, "wsh:tpubB"⟩)]) :=
  document_roundtrip_amended
    [("addresses", .vAddrs ⟨[], []⟩), ("wallet_type", .vStr "2of2"),
      ("x1/", .vKs ⟨"bip32", none, "wsh:tpubA"⟩), ("x2/", .vKs ⟨"bip32", none, "wsh:tpubB"⟩)]
    ⟨[], []⟩ "2of2" (.multisig 2 2)
    (by decide) (by decide) (by decide) (by decide) (by decide) (by decide)

end E2D
